import Mathlib

/-!
# PiLEDlights: activity lights for the Raspberry Pi

A shallow embedding of `actledPi.c`, `hddledPi.c` and `netledPi.c`.

* The C library calls the programs make (`getline`, `sscanf`, `strstr`,
  `fopen`, `fputs`, `fork`, `nanosleep`) are modelled by their documented
  behaviour; what the outside world decides (whether a file opens, what a
  pass over a `/proc` file yields, when a signal arrives) is an explicit
  input of the model.
* `unsigned int` values are naturals below `2 ^ 32`, reduced explicitly
  wherever the C arithmetic can wrap.
* `static` variables of the C functions are fields of an explicit state.
-/

namespace PiLED

/-! ## The C library -/

/-- Width of the C integer types that differ between the two Raspberry Pi
userlands: `unsigned long` has 32 bits on armhf and 64 bits on aarch64. -/
inductive ABI where
  | ilp32
  | lp64
  deriving DecidableEq, Repr

/-- Largest value of `unsigned long`. -/
def ABI.ULONG_MAX : ABI → Nat
  | .ilp32 => 2 ^ 32 - 1
  | .lp64 => 2 ^ 64 - 1

/-- Largest value of `unsigned int` plus one. -/
def UINT_MOD : Nat := 2 ^ 32

/-- Exit status `EXIT_SUCCESS` of `<stdlib.h>`. -/
def EXIT_SUCCESS : Int := 0

/-- Exit status `EXIT_FAILURE` of `<stdlib.h>`. -/
def EXIT_FAILURE : Int := 1

/-- Value `EOF` of `<stdio.h>`. -/
def EOF : Int := -1

/-- The terminating byte of a C string. -/
def NUL : Char := Char.ofNat 0

/-- The line terminator `getline` looks for. -/
def NL : Char := Char.ofNat 10

/-- Function `isspace` in the C locale: space, `\t`, `\n`, `\v`, `\f`, `\r`. -/
def isspace (c : Char) : Bool :=
  c.toNat = 32 || (9 ≤ c.toNat && c.toNat ≤ 13)

/-- Function `isdigit`: the ten ASCII digits. -/
def isdigit (c : Char) : Bool :=
  48 ≤ c.toNat && c.toNat ≤ 57

/-- The bytes a C function sees of a buffer: everything before the first NUL. -/
def cstr (buf : List Char) : List Char :=
  buf.takeWhile (fun c => c != NUL)

/-- The successive results of `getline` on a stream holding `text`: each line
with its terminating newline, the last one possibly without. -/
def getlines : List Char → List (List Char)
  | [] => []
  | c :: cs =>
    if c = NL then [c] :: getlines cs
    else
      match getlines cs with
      | [] => [[c]]
      | l :: ls => (c :: l) :: ls

/-- One directive of a `scanf` format. -/
inductive Directive where
  /-- white space in the format: skips any amount of white space -/
  | space
  /-- an ordinary character, which must match the next input character -/
  | lit (c : Char)
  /-- a conversion `%c` or, when `suppress` is set, `%*c` -/
  | conv (suppress : Bool) (spec : Char)
  deriving DecidableEq, Repr

/-- Reads a `scanf` format string (no widths or length modifiers are used by
the programs). -/
def parseFormat : List Char → List Directive
  | [] => []
  | c :: rest =>
    if c = '%' then
      match rest with
      | [] => []
      | d :: rest2 =>
        if d = '*' then
          match rest2 with
          | [] => []
          | e :: rest3 => Directive.conv true e :: parseFormat rest3
        else Directive.conv false d :: parseFormat rest2
    else if isspace c then Directive.space :: parseFormat rest
    else Directive.lit c :: parseFormat rest

/-- A value stored by `scanf` through one of its pointer arguments. -/
inductive Arg where
  /-- the characters stored by `%s` (a NUL is stored after them) -/
  | str (s : List Char)
  /-- the `unsigned int` stored by `%u` -/
  | uint (v : Nat)
  deriving DecidableEq, Repr

/-- What a call of `sscanf` did: its return value and the values it stored,
in the order of the pointer arguments. -/
structure Scan where
  ret : Int
  args : List Arg
  deriving DecidableEq, Repr

/-- Value of a string of decimal digits. -/
def digitsVal (ds : List Char) : Nat :=
  ds.foldl (fun acc c => 10 * acc + (c.toNat - 48)) 0

/-- Function `strtoul` in base 10 on an optional sign and a non-empty digit
string: saturates at `ULONG_MAX`, negates modulo `ULONG_MAX + 1`. -/
def strtoul (abi : ABI) (neg : Bool) (ds : List Char) : Nat :=
  if digitsVal ds > abi.ULONG_MAX then abi.ULONG_MAX
  else if neg then (abi.ULONG_MAX + 1 - digitsVal ds) % (abi.ULONG_MAX + 1)
  else digitsVal ds

/-- The text a `%u` conversion consumes: an optional sign and the digits
after it. Gives the converted `unsigned int` and the remaining input, or
`none` on a matching failure (no digit). -/
def scanUnsigned (abi : ABI) (inp : List Char) : Option (Nat × List Char) :=
  let neg := inp.head? = some '-'
  let body := if inp.head? = some '-' || inp.head? = some '+' then inp.tail else inp
  let ds := body.takeWhile isdigit
  if ds = [] then none
  else some (strtoul abi neg ds % UINT_MOD, body.dropWhile isdigit)

/-- Return value of `scanf` on an input failure: `EOF` when nothing was
converted yet, the number of conversions otherwise. -/
def inputFailure (done : Nat) (args : List Arg) : Scan :=
  ⟨if done = 0 then EOF else done, args⟩

/-- The directive loop of `vfscanf`, on input `inp`, after `done` stored
conversions. -/
def scanDirectives (abi : ABI) : List Directive → List Char → Nat → List Arg → Scan
  | [], _, done, args => ⟨done, args⟩
  | Directive.space :: ds, inp, done, args =>
    scanDirectives abi ds (inp.dropWhile isspace) done args
  | Directive.lit c :: ds, inp, done, args =>
    match inp with
    | [] => inputFailure done args
    | x :: xs => if x = c then scanDirectives abi ds xs done args else ⟨done, args⟩
  | Directive.conv suppress spec :: ds, inp, done, args =>
    match inp.dropWhile isspace with
    | [] => inputFailure done args
    | x :: xs =>
      if spec = 's' then
        let tok := (x :: xs).takeWhile (fun c => !isspace c)
        let rest := (x :: xs).dropWhile (fun c => !isspace c)
        if suppress then scanDirectives abi ds rest done args
        else scanDirectives abi ds rest (done + 1) (args ++ [Arg.str tok])
      else if spec = 'u' then
        match scanUnsigned abi (x :: xs) with
        | none => ⟨done, args⟩
        | some (v, rest) =>
          if suppress then scanDirectives abi ds rest done args
          else scanDirectives abi ds rest (done + 1) (args ++ [Arg.uint v])
      else ⟨done, args⟩

/-- Function `sscanf(str, format, ...)`. -/
def sscanf (abi : ABI) (str : List Char) (format : String) : Scan :=
  scanDirectives abi (parseFormat format.toList) (cstr str) 0 []

/-- Function `strstr(haystack, needle) != NULL`. -/
def strstr (haystack needle : List Char) : Bool :=
  haystack.tails.any (fun t => needle.isPrefixOf t)

/-- One pass over a `/proc` file, as a call of `activity` meets it. -/
structure Pass where
  /-- `fseek(f, 0L, SEEK_SET)` succeeds -/
  seekOk : Bool := true
  /-- `fflush(f)` succeeds -/
  flushOk : Bool := true
  /-- `errno == EINTR` holds at the tests of the `getline` loop -/
  eintr : Bool := false
  /-- the bytes the file yields on this pass -/
  text : List Char
  /-- the indeterminate values the two counters hold before `sscanf` stores
  into them -/
  junk1 : Nat := 0
  junk2 : Nat := 0
  deriving DecidableEq, Repr

/-- What the first half of `activity` (rewind, flush, extract) comes to. -/
inductive Read where
  /-- `activity` returns `result` at once -/
  | fail (result : Int)
  /-- the two counters that `activity` goes on to compare and store -/
  | counters (c1 c2 : Nat)
  deriving DecidableEq, Repr

/-- What the programs write to the outside, in program order. -/
inductive Event where
  /-- `fputs(s, f)` on the stream opened on `path` (the call, whether or not
  the stream accepts the write) -/
  | fputs (path : String) (s : String)
  /-- `pinMode(pin, mode)` of wiringPi -/
  | pinMode (pin : Nat) (mode : Int)
  /-- `digitalWrite(pin, value)` of wiringPi -/
  | digitalWrite (pin : Nat) (value : Int)
  deriving DecidableEq, Repr

/-- How a run of `main` ends: what it wrote, and the status it returns
(`none` when the run ends in undefined behaviour instead of returning). -/
structure Outcome where
  log : List Event
  status : Option Int
  deriving DecidableEq, Repr

/-- One turn of the poll loop that found `running` still set. -/
inductive Tick where
  /-- `nanosleep` returned a negative value -/
  | interrupted
  /-- `nanosleep` returned 0 and `activity` read the pass `f` -/
  | poll (f : Pass)
  deriving DecidableEq, Repr

/-! ## actledPi.c -/

namespace actledPi

def VMSTAT : String := "/proc/vmstat"
def ACTLED : String := "/sys/class/leds/led0/brightness"
def TRGCTL : String := "/sys/class/leds/led0/trigger"
def LOW : Int := 0
def HIGH : Int := 1

/-- The variables of static storage duration, and the writes issued so far
(oldest first). -/
structure State where
  /-- `static unsigned int prev_pgpgin, prev_pgpgout` of `activity` -/
  prev_pgpgin : Nat := 0
  prev_pgpgout : Nat := 0
  /-- `static int current = 1` of `led` -/
  current : Int := 1
  log : List Event := []
  deriving DecidableEq, Repr

/-- The automatic variables of `activity` that the `getline` loop updates
(the two `int` counters stay far below `INT_MAX`: at most one step per
line). -/
structure Locals where
  pgpgin : Nat
  pgpgout : Nat
  found_pgpgin : Nat
  found_pgpgout : Nat
  deriving DecidableEq, Repr

/-- The value a `%u` argument holds after a `sscanf` call: the stored value
if the conversion took place, the old one otherwise. -/
def stored (r : Scan) (old : Nat) : Nat :=
  match r.args with
  | [Arg.uint v] => v
  | _ => old

/-- The `if`/`else if` on one line in the loop of `activity`. -/
def scanLine (abi : ABI) (line : List Char) (l : Locals) : Locals :=
  if (sscanf abi line "pgpgin %u").ret ≠ 0 then
    { l with pgpgin := stored (sscanf abi line "pgpgin %u") l.pgpgin,
             found_pgpgin := l.found_pgpgin + 1 }
  else if (sscanf abi line "pgpgout %u").ret ≠ 0 then
    { l with pgpgout := stored (sscanf abi line "pgpgout %u") l.pgpgout,
             found_pgpgout := l.found_pgpgout + 1 }
  else l

/-- The `while (getline ...)` loop of `activity` over the lines still to be
read, with its `break`. -/
def scanLines (abi : ABI) : List (List Char) → Locals → Locals
  | [], l => l
  | line :: rest, l =>
    if (scanLine abi line l).found_pgpgin ≠ 0 ∧ (scanLine abi line l).found_pgpgout ≠ 0 then
      scanLine abi line l
    else scanLines abi rest (scanLine abi line l)

/-- First half of `activity`: rewind, flush and extract the I/O stats. Gives
the value `activity` returns early, or the two counters. -/
def readCounters (abi : ABI) (f : Pass) : Read :=
  if !f.seekOk then Read.fail (-1)
  else if !f.flushOk then Read.fail EOF
  else
    let l := scanLines abi (if f.eintr then [] else getlines f.text)
      ⟨f.junk1 % UINT_MOD, f.junk2 % UINT_MOD, 0, 0⟩
    if l.found_pgpgin = 0 ∨ l.found_pgpgout = 0 then Read.fail (-1)
    else Read.counters l.pgpgin l.pgpgout

/-- Function `activity`: its return value and the state it leaves. -/
def activity (abi : ABI) (f : Pass) (s : State) : Int × State :=
  match readCounters abi f with
  | Read.fail result => (result, s)
  | Read.counters pgpgin pgpgout =>
    (if s.prev_pgpgin ≠ pgpgin ∨ s.prev_pgpgout ≠ pgpgout then 1 else 0,
     { s with prev_pgpgin := pgpgin, prev_pgpgout := pgpgout })

/-- Function `led`. -/
def led (on_ : Int) (s : State) : State :=
  if s.current = on_ then s
  else
    { s with
      log := s.log ++ [if on_ ≠ 0 then Event.fputs ACTLED "255\n" else Event.fputs ACTLED "0\n"],
      current := on_ }

/-- What `main` finds outside the program. -/
structure Env where
  abi : ABI := ABI.ilp32
  /-- value returned by `argp_parse` -/
  argp_parse : Int := 0
  /-- the options as `parse_options` left them -/
  o_refresh : Nat := 20
  o_detach : Int := 0
  /-- `fopen(VMSTAT, "r")` succeeds -/
  vmstat : Bool := true
  /-- `fopen(TRGCTL, "rw")` succeeds, before the loop -/
  trigger : Bool := true
  /-- `fopen(ACTLED, "w")` succeeds -/
  actled : Bool := true
  /-- the pass read by the call of `activity` before the loop -/
  priming : Pass
  /-- value returned by `fork` -/
  child : Int := 0
  /-- the turns of the loop that found `running` set; after them the test
  `while (running)` finds the flag cleared by `shutdown` -/
  ticks : List Tick
  /-- `fopen(TRGCTL, "rw")` succeeds, at `out` -/
  restore : Bool := true
  deriving DecidableEq, Repr

/-- The loop `while (running)` of `main`. -/
def loop (abi : ABI) : List Tick → State → State
  | [], s => s
  | Tick.interrupted :: _, s => s
  | Tick.poll f :: rest, s =>
    if (activity abi f s).1 < 0 then (activity abi f s).2
    else loop abi rest (led (activity abi f s).1 (activity abi f s).2)

/-- The code of `main` from the label `out`, reached with `actled` opened or
not: `fputs` on the NULL stream of a failed `fopen` is undefined. -/
def out (e : Env) (actledOpen : Bool) (s : State) (status : Int) : Outcome :=
  if actledOpen then
    if e.restore then ⟨s.log ++ [Event.fputs TRGCTL "mmc0\n"], some status⟩
    else ⟨s.log, none⟩
  else ⟨s.log, some status⟩

/-- Function `main`, from the return of `argp_parse` on. -/
def main (e : Env) : Outcome :=
  let s : State := {}
  if e.argp_parse ≠ 0 then out e false s EXIT_FAILURE
  else if !e.vmstat then out e false s EXIT_FAILURE
  else if !e.trigger then out e false s EXIT_FAILURE
  else
    let s := { s with log := s.log ++ [Event.fputs TRGCTL "none\n"] }
    if !e.actled then out e false s EXIT_FAILURE
    else
      let s := led LOW s
      if (activity e.abi e.priming s).1 < 0 then
        out e true (activity e.abi e.priming s).2 EXIT_FAILURE
      else
        let s := (activity e.abi e.priming s).2
        if e.o_detach ≠ 0 ∧ e.child < 0 then out e true s EXIT_FAILURE
        else if e.o_detach ≠ 0 ∧ e.child ≠ 0 then out e true s EXIT_SUCCESS
        else out e true (led LOW (loop e.abi e.ticks s)) EXIT_SUCCESS

/-- The option variables `o_refresh` and `o_detach`. -/
structure Options where
  o_refresh : Nat := 20
  o_detach : Int := 0
  deriving DecidableEq, Repr

/-- What a call of `parse_options` comes to. -/
inductive Parsed where
  /-- `argp_failure` with a non-zero status ends the process through
  `exit(status)` (the parser runs without `ARGP_NO_EXIT`) -/
  | exit (status : Int)
  /-- the function returns `value` and leaves the options `o` -/
  | ret (value : Int) (o : Options)
  deriving DecidableEq, Repr

/-- Function `parse_options`; `v` is the value `strtol(arg, NULL, 10)`
returns, which the assignment to the `unsigned int o_refresh` reduces modulo
`2 ^ 32`. -/
def parse_options (key : Int) (v : Int) (o : Options) : Parsed :=
  if key = 'd'.toNat then Parsed.ret 0 { o with o_detach := 1 }
  else if key = 'r'.toNat then
    if (v % (UINT_MOD : Int)).toNat < 10 then Parsed.exit EXIT_FAILURE
    else Parsed.ret 0 { o with o_refresh := (v % (UINT_MOD : Int)).toNat }
  else Parsed.ret 0 o

/-- The values returned by successive calls of `activity`, one per pass. -/
def activities (abi : ABI) : List Pass → State → List Int
  | [], _ => []
  | f :: fs, s => (activity abi f s).1 :: activities abi fs (activity abi f s).2

/-- Successive calls of `led`, one per argument. -/
def leds (args : List Int) (s : State) : State :=
  args.foldl (fun s a => led a s) s

/-- The last string written to the stream opened on `path`, if any. -/
def lastWritten (path : String) (log : List Event) : Option String :=
  (log.filterMap (fun ev =>
    match ev with
    | Event.fputs p s => if p = path then some s else none
    | _ => none)).getLast?

end actledPi

/-! ## hddledPi.c -/

namespace hddledPi

/-- Constants of `<wiringPi.h>`. -/
def LOW : Int := 0
def HIGH : Int := 1
def OUTPUT : Int := 1

/-- The variables of static storage duration and the writes issued so far:
the same as in `actledPi.c`. -/
abbrev State := actledPi.State

/-- Function `activity`: the same text as in `actledPi.c`. -/
def activity (abi : ABI) (f : Pass) (s : State) : Int × State :=
  actledPi.activity abi f s

/-- Function `led`. -/
def led (o_gpiopin : Nat) (on_ : Int) (s : State) : State :=
  if s.current = on_ then s
  else
    { s with
      log := s.log ++ [if on_ ≠ 0 then Event.digitalWrite o_gpiopin HIGH
                       else Event.digitalWrite o_gpiopin LOW],
      current := on_ }

/-- What `main` finds outside the program. -/
structure Env where
  abi : ABI := ABI.ilp32
  /-- value returned by `argp_parse` -/
  argp_parse : Int := 0
  /-- the options as `parse_options` left them -/
  o_refresh : Nat := 20
  o_gpiopin : Nat := 10
  o_detach : Int := 0
  /-- `fopen(VMSTAT, "r")` succeeds -/
  vmstat : Bool := true
  /-- the pass read by the call of `activity` before the loop -/
  priming : Pass
  /-- value returned by `fork` -/
  child : Int := 0
  /-- the turns of the loop that found `running` set; after them the test
  `while (running)` finds the flag cleared by `shutdown` -/
  ticks : List Tick
  deriving DecidableEq, Repr

/-- The loop `while (running)` of `main`. -/
def loop (abi : ABI) (o_gpiopin : Nat) : List Tick → State → State
  | [], s => s
  | Tick.interrupted :: _, s => s
  | Tick.poll f :: rest, s =>
    if (activity abi f s).1 < 0 then (activity abi f s).2
    else loop abi o_gpiopin rest (led o_gpiopin (activity abi f s).1 (activity abi f s).2)

/-- Function `main`, from the return of `argp_parse` on; `wiringPiSetup` is
taken to return. -/
def main (e : Env) : Outcome :=
  let s : State := {}
  if e.argp_parse ≠ 0 then ⟨s.log, some EXIT_FAILURE⟩
  else
    let s := { s with log := s.log ++ [Event.pinMode e.o_gpiopin OUTPUT] }
    if !e.vmstat then ⟨s.log, some EXIT_FAILURE⟩
    else
      let s := led e.o_gpiopin LOW s
      if (activity e.abi e.priming s).1 < 0 then
        ⟨(activity e.abi e.priming s).2.log, some EXIT_FAILURE⟩
      else
        let s := (activity e.abi e.priming s).2
        if e.o_detach ≠ 0 ∧ e.child < 0 then ⟨s.log, some EXIT_FAILURE⟩
        else if e.o_detach ≠ 0 ∧ e.child ≠ 0 then ⟨s.log, some EXIT_SUCCESS⟩
        else ⟨(led e.o_gpiopin LOW (loop e.abi e.o_gpiopin e.ticks s)).log, some EXIT_SUCCESS⟩

/-- Successive calls of `led`, one per argument. -/
def leds (o_gpiopin : Nat) (args : List Int) (s : State) : State :=
  args.foldl (fun s a => led o_gpiopin a s) s

end hddledPi

/-! ## netledPi.c -/

namespace netledPi

/-- The variables of static storage duration of `activity` and `led`, and
the writes issued so far (oldest first). -/
structure State where
  prev_inpackets : Nat := 0
  prev_outpackets : Nat := 0
  current : Int := 1
  log : List Event := []
  deriving DecidableEq, Repr

/-- The automatic variables of `activity` that the `getline` loop updates;
`device` is `none` as long as nothing was stored into `char device[8]`. -/
structure Locals where
  inpackets : Nat := 0
  outpackets : Nat := 0
  device_inpackets : Nat := 0
  device_outpackets : Nat := 0
  found_inpackets : Nat := 0
  found_outpackets : Nat := 0
  device : Option (List Char) := none
  deriving DecidableEq, Repr

/-- The format of the `sscanf` call on a line of `/proc/net/dev`. -/
def FORMAT : String :=
  "%s %*u %u %*u %*u %*u %*u %*u %*u %*u %u %*u %*u %*u %*u %*u %*u"

/-- The variables `device`, `device_inpackets`, `device_outpackets` after a
`sscanf` call that stored `args`. -/
def storedDevice (args : List Arg) (old : Option (List Char)) : Option (List Char) :=
  match args with
  | Arg.str d :: _ => some d
  | _ => old

def storedIn (args : List Arg) (old : Nat) : Nat :=
  match args with
  | _ :: Arg.uint v :: _ => v
  | _ => old

def storedOut (args : List Arg) (old : Nat) : Nat :=
  match args with
  | _ :: _ :: Arg.uint v :: _ => v
  | _ => old

/-- The body of the `getline` loop of `activity` on one line. The result is
`none` when the behaviour is undefined: `%s` stores more than the 8 bytes of
`device`, or `strstr` reads `device` before anything was stored in it. -/
def scanLine (abi : ABI) (line : List Char) (l : Locals) : Option Locals :=
  let r := sscanf abi (line.dropWhile (fun c => c = ' ')) FORMAT
  if r.ret ≠ 0 then
    match storedDevice r.args l.device with
    | none => none
    | some device =>
      if device.length + 1 > 8 then none
      else if strstr device "lo:".toList then
        some { l with device := some device,
                      device_inpackets := storedIn r.args l.device_inpackets,
                      device_outpackets := storedOut r.args l.device_outpackets }
      else
        some { l with device := some device,
                      device_inpackets := storedIn r.args l.device_inpackets,
                      device_outpackets := storedOut r.args l.device_outpackets,
                      found_inpackets := l.found_inpackets + 1,
                      found_outpackets := l.found_outpackets + 1,
                      inpackets := (l.inpackets + storedIn r.args l.device_inpackets) % UINT_MOD,
                      outpackets := (l.outpackets + storedOut r.args l.device_outpackets) % UINT_MOD }
  else some l

/-- The `while (getline ...)` loop of `activity` over the lines still to be
read. -/
def scanLines (abi : ABI) : List (List Char) → Locals → Option Locals
  | [], l => some l
  | line :: rest, l =>
    match scanLine abi line l with
    | none => none
    | some l1 => scanLines abi rest l1

/-- First half of `activity`: rewind, flush and extract the I/O stats. Gives
`none` on undefined behaviour, else the value `activity` returns early, or
the two aggregates. -/
def readCounters (abi : ABI) (f : Pass) : Option Read :=
  if !f.seekOk then some (Read.fail (-1))
  else if !f.flushOk then some (Read.fail EOF)
  else
    match scanLines abi (if f.eintr then [] else getlines f.text) {} with
    | none => none
    | some l =>
      if l.found_inpackets = 0 ∨ l.found_outpackets = 0 then some (Read.fail (-1))
      else some (Read.counters l.inpackets l.outpackets)

/-- Function `activity`: its return value and the state it leaves, `none` on
undefined behaviour. -/
def activity (abi : ABI) (f : Pass) (s : State) : Option (Int × State) :=
  match readCounters abi f with
  | none => none
  | some (Read.fail result) => some (result, s)
  | some (Read.counters inpackets outpackets) =>
    some (if s.prev_inpackets ≠ inpackets ∨ s.prev_outpackets ≠ outpackets then 1 else 0,
          { s with prev_inpackets := inpackets, prev_outpackets := outpackets })

/-- The values returned by successive calls of `activity`, one per pass;
`none` if one of them has undefined behaviour. -/
def activities (abi : ABI) : List Pass → State → Option (List Int)
  | [], _ => some []
  | f :: fs, s =>
    match activity abi f s with
    | none => none
    | some (r, s1) =>
      match activities abi fs s1 with
      | none => none
      | some rs => some (r :: rs)

end netledPi

/-- A pass that rewinds and flushes without error and yields `text`. -/
def passOf (text : String) : Pass := { text := text.toList }

/-- Number of value changes in a sequence of requested levels that follows
the level `prev`: the requests that differ from the one before them. -/
def changes (prev : Int) : List Int → Nat
  | [] => 0
  | a :: rest => (if a = prev then 0 else 1) + changes a rest

/-- The cache of `led` is sound for the level off: when `current` is 0, the
last string written to the brightness file is `"0\n"`. -/
def actledPi.OffCached (s : actledPi.State) : Prop :=
  s.current = 0 → actledPi.lastWritten actledPi.ACTLED s.log = some "0\n"

/-- The state of `actledPi.c` once the sink is initialised and `led(LOW)`
has run for the first time. -/
def actledPi.started : actledPi.State :=
  actledPi.led actledPi.LOW { log := [Event.fputs actledPi.TRGCTL "none\n"] }

/-- The state of `hddledPi.c` once `pinMode` and the first `led(LOW)` have
run. -/
def hddledPi.started (o_gpiopin : Nat) : hddledPi.State :=
  hddledPi.led o_gpiopin hddledPi.LOW { log := [Event.pinMode o_gpiopin hddledPi.OUTPUT] }

/-- Setup of `actledPi.c` succeeds: `argp_parse` returns 0, the three files
open, the priming call of `activity` yields counters, and `fork`, if asked
for, does not fail. -/
def actledPi.SetupOk (e : actledPi.Env) : Prop :=
  e.argp_parse = 0 ∧ e.vmstat = true ∧ e.trigger = true ∧ e.actled = true ∧
  (∃ c1 c2, actledPi.readCounters e.abi e.priming = Read.counters c1 c2) ∧
  ¬ (e.o_detach ≠ 0 ∧ e.child < 0)

/-- Setup of `hddledPi.c` succeeds: `argp_parse` returns 0, the counter file
opens, the priming call of `activity` yields counters, and `fork`, if asked
for, does not fail. -/
def hddledPi.SetupOk (e : hddledPi.Env) : Prop :=
  e.argp_parse = 0 ∧ e.vmstat = true ∧
  (∃ c1 c2, actledPi.readCounters e.abi e.priming = Read.counters c1 c2) ∧
  ¬ (e.o_detach ≠ 0 ∧ e.child < 0)

/-- The first half of `activity` yielded counters. -/
def Read.isCounters : Read → Bool
  | Read.counters _ _ => true
  | Read.fail _ => false

/-- Setup of `actledPi.c` succeeds, as a test on the environment. -/
def actledPi.setupOk (e : actledPi.Env) : Bool :=
  decide (e.argp_parse = 0) && e.vmstat && e.trigger && e.actled &&
  (actledPi.readCounters e.abi e.priming).isCounters &&
  !(decide (e.o_detach ≠ 0) && decide (e.child < 0))

/-- Setup of `hddledPi.c` succeeds, as a test on the environment. -/
def hddledPi.setupOk (e : hddledPi.Env) : Bool :=
  decide (e.argp_parse = 0) && e.vmstat &&
  (actledPi.readCounters e.abi e.priming).isCounters &&
  !(decide (e.o_detach ≠ 0) && decide (e.child < 0))

/-! ## The text of `/proc/vmstat` -/

/-- A key or a value of a line: a non-empty word free of white space and of
NUL. -/
def isWord (w : List Char) : Bool :=
  !w.isEmpty && w.all (fun c => !isspace c && c != NUL)

/-- A delimiter between key and value: a non-empty run of spaces and tabs. -/
def isBlank (b : List Char) : Bool :=
  !b.isEmpty && b.all (fun c => c.toNat = 32 || c.toNat = 9)

/-- A non-empty string of decimal digits. -/
def isNumeral (w : List Char) : Bool :=
  !w.isEmpty && w.all isdigit

/-- A line of `/proc/vmstat`: a key, white space, a value. -/
structure Row where
  key : List Char
  sep : List Char := [' ']
  value : List Char
  deriving DecidableEq, Repr

/-- The characters of the line, newline included. -/
def Row.line (r : Row) : List Char :=
  r.key ++ (r.sep ++ (r.value ++ [NL]))

/-- Key and value are words and the delimiter is blank. -/
def Row.wellFormed (r : Row) : Bool :=
  isWord r.key && isBlank r.sep && isWord r.value

/-- The text made of the lines of `rows`. -/
def vmstatText : List Row → List Char
  | [] => []
  | r :: rows => r.line ++ vmstatText rows

/-- The values of the rows whose key is `name`. -/
def valuesOf (name : String) (rows : List Row) : List (List Char) :=
  (rows.filter (fun r => r.key = name.toList)).map Row.value

/-- The word `t` begins like a number `%u` converts: a digit, or a sign and
a digit. -/
def startsNumber (t : List Char) : Bool :=
  match t with
  | [] => false
  | [c] => isdigit c
  | c :: d :: _ => isdigit c || ((c = '-' || c = '+') && isdigit d)

/-- The key is `name` directly followed by a number, as in `pgpgin7`. -/
def shadows (name : String) (key : List Char) : Bool :=
  name.toList.isPrefixOf key && startsNumber (key.drop name.length)

/-- A pass that rewinds and flushes without error and yields the lines of
`rows`, whatever the counters hold beforehand. -/
def passOfRows (rows : List Row) (junk1 junk2 : Nat) : Pass :=
  { text := vmstatText rows, junk1 := junk1, junk2 := junk2 }

/-- A row of a text in which every line is well formed, no key shadows a
counter name, and the lines of key `pgpgin` and `pgpgout` hold the numerals
of `n` and of `m`. -/
def RowOk (n m : Nat) (r : Row) : Prop :=
  r.wellFormed = true ∧ shadows "pgpgin" r.key = false ∧ shadows "pgpgout" r.key = false ∧
  (r.key = "pgpgin".toList → isNumeral r.value = true ∧ digitsVal r.value = n) ∧
  (r.key = "pgpgout".toList → isNumeral r.value = true ∧ digitsVal r.value = m)

/-! ## The delay, the pin and the cache -/

/-- Width in bits of `long` and of `time_t`. -/
def ABI.LONG_BIT : ABI → Nat
  | .ilp32 => 32
  | .lp64 => 64

/-- Conversion of an `unsigned int` value to a signed integer type of `bits`
bits: values that do not fit wrap around. -/
def toSigned (bits : Nat) (x : Nat) : Int :=
  if x % 2 ^ bits < 2 ^ (bits - 1) then (x % 2 ^ bits : Nat) else (x % 2 ^ bits : Nat) - 2 ^ bits

/-- The type `struct timespec` of `<time.h>`. -/
structure timespec where
  tv_sec : Int
  tv_nsec : Int
  deriving DecidableEq, Repr

/-- The two assignments to `delay` in `main` of `actledPi.c`: the division,
the remainder and the product are `unsigned int` operations, and the results
are converted to `time_t` and to `long`. -/
def actledPi.delay (abi : ABI) (o_refresh : Nat) : timespec :=
  { tv_sec := toSigned abi.LONG_BIT ((o_refresh / 1000) % UINT_MOD),
    tv_nsec := toSigned abi.LONG_BIT ((1000000 * (o_refresh % 1000 % UINT_MOD)) % UINT_MOD) }

/-- The two assignments to `delay` in `main` of `hddledPi.c`: the same text
as in `actledPi.c`. -/
def hddledPi.delay (abi : ABI) (o_refresh : Nat) : timespec :=
  { tv_sec := toSigned abi.LONG_BIT ((o_refresh / 1000) % UINT_MOD),
    tv_nsec := toSigned abi.LONG_BIT ((1000000 * (o_refresh % 1000 % UINT_MOD)) % UINT_MOD) }

/-- The two assignments to `delay` in `main` of `netledPi.c`: the same text
as in `actledPi.c`. -/
def netledPi.delay (abi : ABI) (o_refresh : Nat) : timespec :=
  { tv_sec := toSigned abi.LONG_BIT ((o_refresh / 1000) % UINT_MOD),
    tv_nsec := toSigned abi.LONG_BIT ((1000000 * (o_refresh % 1000 % UINT_MOD)) % UINT_MOD) }

/-- The last value written to the pin `pin`, if any. -/
def hddledPi.lastWrite (pin : Nat) (log : List Event) : Option Int :=
  (log.filterMap (fun ev =>
    match ev with
    | Event.digitalWrite p v => if p = pin then some v else none
    | _ => none)).getLast?

/-- The cache of `led` is sound: the last string written to the brightness
file is the one for the level `current`. -/
def actledPi.Cached (s : actledPi.State) : Prop :=
  actledPi.lastWritten actledPi.ACTLED s.log = some (if s.current ≠ 0 then "255\n" else "0\n")

/-- The cache of `led` is sound: the last value written to the pin is the
one for the level `current`. -/
def hddledPi.Cached (pin : Nat) (s : hddledPi.State) : Prop :=
  hddledPi.lastWrite pin s.log
    = some (if s.current ≠ 0 then hddledPi.HIGH else hddledPi.LOW)

/-- The two header lines of `/proc/net/dev`. -/
def netledPi.HEADER : String :=
  "Inter-|   Receive                                                |  Transmit\n" ++
  " face |bytes    packets errs drop fifo frame compressed multicast|bytes    packets errs drop fifo colls carrier compressed\n"

/-- A row of `/proc/net/dev` for the loopback device. -/
def netledPi.LOOPBACK : String :=
  "    lo:  123456    9999    0    0    0     0          0         0   123456    9999    0    0    0     0       0          0\n"

/-! ## Stream modes -/

/-- Whether a stream that `fopen` of glibc opens with `mode` accepts writes:
the first character `w` or `a` opens for writing, `r` for reading only unless
a `+` is among the six characters after it; other characters there are
ignored, so that `"rw"` is read-only. -/
def writable (mode : String) : Bool :=
  match cstr mode.toList with
  | [] => false
  | c :: rest => c = 'w' || c = 'a' || (c = 'r' && (rest.take 6).contains '+')

theorem actled_activity_of_counters (abi : ABI) (f : Pass) (s : actledPi.State) (c1 c2 : Nat)
    (h : actledPi.readCounters abi f = Read.counters c1 c2) :
    actledPi.activity abi f s =
      (if s.prev_pgpgin ≠ c1 ∨ s.prev_pgpgout ≠ c2 then 1 else 0,
       { s with prev_pgpgin := c1, prev_pgpgout := c2 }) := by
  simp [actledPi.activity, h]

theorem netled_activity_of_counters (abi : ABI) (f : Pass) (s : netledPi.State) (c1 c2 : Nat)
    (h : netledPi.readCounters abi f = some (Read.counters c1 c2)) :
    netledPi.activity abi f s =
      some (if s.prev_inpackets ≠ c1 ∨ s.prev_outpackets ≠ c2 then 1 else 0,
            { s with prev_inpackets := c1, prev_outpackets := c2 }) := by
  simp [netledPi.activity, h]

theorem actled_activities_same (abi : ABI) (f : Pass) (c1 c2 : Nat)
    (h : actledPi.readCounters abi f = Read.counters c1 c2) (n : Nat) :
    ∀ s : actledPi.State, s.prev_pgpgin = c1 → s.prev_pgpgout = c2 →
      actledPi.activities abi (List.replicate n f) s = List.replicate n 0 := by
  induction n with
  | zero => intro s _ _; rfl
  | succ n ih =>
    intro s h1 h2
    rw [List.replicate_succ, actledPi.activities, actled_activity_of_counters abi f s c1 c2 h]
    simp only [h1, h2, ne_eq, not_true_eq_false, or_self, if_false]
    rw [ih _ rfl rfl]
    rfl

theorem netled_activities_same (abi : ABI) (f : Pass) (c1 c2 : Nat)
    (h : netledPi.readCounters abi f = some (Read.counters c1 c2)) (n : Nat) :
    ∀ s : netledPi.State, s.prev_inpackets = c1 → s.prev_outpackets = c2 →
      netledPi.activities abi (List.replicate n f) s = some (List.replicate n 0) := by
  induction n with
  | zero => intro s _ _; rfl
  | succ n ih =>
    intro s h1 h2
    rw [List.replicate_succ, netledPi.activities, netled_activity_of_counters abi f s c1 c2 h]
    simp only [h1, h2, ne_eq, not_true_eq_false, or_self, if_false]
    rw [ih _ rfl rfl]
    rfl

/-- C1. Change detection over consecutive samples, in `actledPi.c` and in
`netledPi.c`: when `activity` succeeds on a pass that yields the counters
`(p1, p2)` and is called again on a pass that yields `(c1, c2)`, the second
call returns 1 iff one of the two counters differs, in either direction, and
0 iff both are equal; and `n` further calls on the pass of the first call
all return 0. -/
theorem C1_change_detection (abi : ABI) :
    (∀ (f g : Pass) (s : actledPi.State) (p1 p2 c1 c2 : Nat),
      actledPi.readCounters abi f = Read.counters p1 p2 →
      actledPi.readCounters abi g = Read.counters c1 c2 →
      0 ≤ (actledPi.activity abi f s).1 ∧
      ((actledPi.activity abi g (actledPi.activity abi f s).2).1 = 1 ↔ (p1 ≠ c1 ∨ p2 ≠ c2)) ∧
      ((actledPi.activity abi g (actledPi.activity abi f s).2).1 = 0 ↔ (p1 = c1 ∧ p2 = c2)) ∧
      ∀ n, (actledPi.activities abi (List.replicate (n + 1) f) s).tail = List.replicate n 0) ∧
    (∀ (f g : Pass) (s : netledPi.State) (p1 p2 c1 c2 : Nat),
      netledPi.readCounters abi f = some (Read.counters p1 p2) →
      netledPi.readCounters abi g = some (Read.counters c1 c2) →
      ∃ r1 s1 r2 s2, netledPi.activity abi f s = some (r1, s1) ∧ 0 ≤ r1 ∧
        netledPi.activity abi g s1 = some (r2, s2) ∧
        (r2 = 1 ↔ (p1 ≠ c1 ∨ p2 ≠ c2)) ∧ (r2 = 0 ↔ (p1 = c1 ∧ p2 = c2)) ∧
        ∀ n, (netledPi.activities abi (List.replicate (n + 1) f) s).map List.tail
          = some (List.replicate n 0)) := by
  refine ⟨?_, ?_⟩
  · intro f g s p1 p2 c1 c2 hf hg
    rw [actled_activity_of_counters abi f s p1 p2 hf]
    refine ⟨by dsimp only; split <;> decide, ?_, ?_, ?_⟩
    · rw [actled_activity_of_counters abi g _ c1 c2 hg]
      by_cases h : p1 ≠ c1 ∨ p2 ≠ c2 <;> simp [h]
    · rw [actled_activity_of_counters abi g _ c1 c2 hg]
      by_cases h : p1 = c1 ∧ p2 = c2
      · simp [h]
      · have h2 : p1 ≠ c1 ∨ p2 ≠ c2 := by
          by_contra hc; push_neg at hc; exact h hc
        simp only [h, iff_false]
        simp [h2]
    · intro n
      rw [List.replicate_succ, actledPi.activities, actled_activity_of_counters abi f s p1 p2 hf]
      simp only [List.tail_cons]
      exact actled_activities_same abi f p1 p2 hf n _ rfl rfl
  · intro f g s p1 p2 c1 c2 hf hg
    refine ⟨_, _, _, _, netled_activity_of_counters abi f s p1 p2 hf, ?_,
      netled_activity_of_counters abi g _ c1 c2 hg, ?_, ?_, ?_⟩
    · split <;> decide
    · by_cases h : p1 ≠ c1 ∨ p2 ≠ c2 <;> simp [h]
    · by_cases h : p1 = c1 ∧ p2 = c2
      · simp [h]
      · have h2 : p1 ≠ c1 ∨ p2 ≠ c2 := by
          by_contra hc; push_neg at hc; exact h hc
        simp only [h, iff_false]
        simp [h2]
    · intro n
      rw [List.replicate_succ, netledPi.activities, netled_activity_of_counters abi f s p1 p2 hf]
      simp only
      rw [netled_activities_same abi f p1 p2 hf n _ rfl rfl]
      rfl

/-- Witness of C1: the disk passes `(10, 5)` then `(12, 5)`, and the network
passes `(100, 70)` then `(100, 70)`. -/
theorem C1_change_detection_witness :
    (actledPi.readCounters ABI.ilp32 (passOf "pgpgin 10\npgpgout 5\n") = Read.counters 10 5 ∧
     actledPi.readCounters ABI.ilp32 (passOf "pgpgin 12\npgpgout 5\n") = Read.counters 12 5 ∧
     (actledPi.activity ABI.ilp32 (passOf "pgpgin 12\npgpgout 5\n")
       (actledPi.activity ABI.ilp32 (passOf "pgpgin 10\npgpgout 5\n") {}).2).1 = 1) ∧
    (netledPi.readCounters ABI.ilp32 (passOf "eth0: 1 100 0 0 0 0 0 0 2 70 0 0 0 0 0 0\n")
       = some (Read.counters 100 70) ∧
     ∃ r1 s1 r2 s2,
       netledPi.activity ABI.ilp32 (passOf "eth0: 1 100 0 0 0 0 0 0 2 70 0 0 0 0 0 0\n") {}
         = some (r1, s1) ∧
       netledPi.activity ABI.ilp32 (passOf "eth0: 1 100 0 0 0 0 0 0 2 70 0 0 0 0 0 0\n") s1
         = some (r2, s2) ∧ r2 = 0) := by
  have hd1 : actledPi.readCounters ABI.ilp32 (passOf "pgpgin 10\npgpgout 5\n")
      = Read.counters 10 5 := by decide
  have hd2 : actledPi.readCounters ABI.ilp32 (passOf "pgpgin 12\npgpgout 5\n")
      = Read.counters 12 5 := by decide
  have hn : netledPi.readCounters ABI.ilp32 (passOf "eth0: 1 100 0 0 0 0 0 0 2 70 0 0 0 0 0 0\n")
      = some (Read.counters 100 70) := by decide
  refine ⟨⟨hd1, hd2, ?_⟩, hn, ?_⟩
  · exact ((C1_change_detection ABI.ilp32).1 _ _ {} 10 5 12 5 hd1 hd2).2.1.mpr (Or.inl (by decide))
  · obtain ⟨r1, s1, r2, s2, h1, _, h2, _, h0, _⟩ :=
      (C1_change_detection ABI.ilp32).2 _ _ {} 100 70 100 70 hn hn
    exact ⟨r1, s1, r2, s2, h1, h2, h0.mpr ⟨rfl, rfl⟩⟩

/-! ## The sink -/

theorem actled_leds_log (args : List Int) :
    ∀ s : actledPi.State, ∃ w, (actledPi.leds args s).log = s.log ++ w ∧
      w.length = changes s.current args := by
  induction args with
  | nil => intro s; exact ⟨[], by simp [actledPi.leds], rfl⟩
  | cons a rest ih =>
    intro s
    obtain ⟨w, hw, hl⟩ := ih (actledPi.led a s)
    have hstep : actledPi.leds (a :: rest) s = actledPi.leds rest (actledPi.led a s) := rfl
    rw [hstep, hw]
    by_cases h : s.current = a
    · refine ⟨w, by simp [actledPi.led, h], ?_⟩
      rw [hl]; simp [actledPi.led, h, changes]
    · refine ⟨(if a ≠ 0 then Event.fputs actledPi.ACTLED "255\n"
        else Event.fputs actledPi.ACTLED "0\n") :: w, by simp [actledPi.led, h], ?_⟩
      have h2 : ¬ a = s.current := fun e => h e.symm
      rw [List.length_cons, hl]
      simp [actledPi.led, h, h2, changes]; omega

theorem hddled_leds_log (pin : Nat) (args : List Int) :
    ∀ s : hddledPi.State, ∃ w, (hddledPi.leds pin args s).log = s.log ++ w ∧
      w.length = changes s.current args := by
  induction args with
  | nil => intro s; exact ⟨[], by simp [hddledPi.leds], rfl⟩
  | cons a rest ih =>
    intro s
    obtain ⟨w, hw, hl⟩ := ih (hddledPi.led pin a s)
    have hstep : hddledPi.leds pin (a :: rest) s = hddledPi.leds pin rest (hddledPi.led pin a s) :=
      rfl
    rw [hstep, hw]
    by_cases h : s.current = a
    · refine ⟨w, by simp [hddledPi.led, h], ?_⟩
      rw [hl]; simp [hddledPi.led, h, changes]
    · refine ⟨(if a ≠ 0 then Event.digitalWrite pin hddledPi.HIGH
        else Event.digitalWrite pin hddledPi.LOW) :: w, by simp [hddledPi.led, h], ?_⟩
      have h2 : ¬ a = s.current := fun e => h e.symm
      rw [List.length_cons, hl]
      simp [hddledPi.led, h, h2, changes]; omega

/-- C2. Idempotent sink writes: a sequence of `led` calls appends to what
was written before exactly as many writes (`fputs` to the brightness file in
`actledPi.c`, `digitalWrite` in `hddledPi.c`) as the sequence has value
changes, counted from the stored level `current`; on, on, on, off from a
sink that is off gives 2 writes. -/
theorem C2_idempotent_sink_writes (args : List Int) (s : actledPi.State) (pin : Nat) :
    (∃ w, (actledPi.leds args s).log = s.log ++ w ∧ w.length = changes s.current args) ∧
    (∃ w, (hddledPi.leds pin args s).log = s.log ++ w ∧ w.length = changes s.current args) ∧
    (actledPi.leds [1, 1, 1, 0] { current := 0 }).log
      = [Event.fputs actledPi.ACTLED "255\n", Event.fputs actledPi.ACTLED "0\n"] ∧
    (hddledPi.leds pin [1, 1, 1, 0] { current := 0 }).log
      = [Event.digitalWrite pin 1, Event.digitalWrite pin 0] :=
  ⟨actled_leds_log args s, hddled_leds_log pin args s, by decide, by
    simp [hddledPi.leds, hddledPi.led, hddledPi.HIGH, hddledPi.LOW]⟩

/-! ## Shutdown -/

theorem lastWritten_snoc_same (path str : String) (log : List Event) :
    actledPi.lastWritten path (log ++ [Event.fputs path str]) = some str := by
  simp [actledPi.lastWritten, List.filterMap_append]

theorem lastWritten_snoc_other (path p str : String) (log : List Event) (h : p ≠ path) :
    actledPi.lastWritten path (log ++ [Event.fputs p str]) = actledPi.lastWritten path log := by
  simp [actledPi.lastWritten, List.filterMap_append, h]

theorem actled_led_offCached (a : Int) (s : actledPi.State) (h : actledPi.OffCached s) :
    actledPi.OffCached (actledPi.led a s) := by
  unfold actledPi.led
  by_cases hc : s.current = a
  · simpa [hc] using h
  · rw [if_neg hc]
    intro h0
    have ha : a = 0 := h0
    subst ha
    simp only [ne_eq, not_true_eq_false, if_false]
    exact lastWritten_snoc_same _ _ _

theorem actled_activity_log (abi : ABI) (f : Pass) (s : actledPi.State) :
    (actledPi.activity abi f s).2.log = s.log ∧
    (actledPi.activity abi f s).2.current = s.current := by
  unfold actledPi.activity
  cases actledPi.readCounters abi f <;> simp

theorem actled_activity_offCached (abi : ABI) (f : Pass) (s : actledPi.State)
    (h : actledPi.OffCached s) : actledPi.OffCached (actledPi.activity abi f s).2 := by
  unfold actledPi.OffCached
  rw [(actled_activity_log abi f s).1, (actled_activity_log abi f s).2]
  exact h

theorem actled_loop_offCached (abi : ABI) (ticks : List Tick) :
    ∀ s : actledPi.State, actledPi.OffCached s → actledPi.OffCached (actledPi.loop abi ticks s) := by
  induction ticks with
  | nil => intro s h; exact h
  | cons t rest ih =>
    intro s h
    cases t with
    | interrupted => exact h
    | poll f =>
      simp only [actledPi.loop]
      split
      · exact actled_activity_offCached abi f s h
      · exact ih _ (actled_led_offCached _ _ (actled_activity_offCached abi f s h))

theorem actled_led_LOW_last (s : actledPi.State) (h : actledPi.OffCached s) :
    actledPi.lastWritten actledPi.ACTLED (actledPi.led actledPi.LOW s).log = some "0\n" := by
  unfold actledPi.led
  by_cases hc : s.current = actledPi.LOW
  · rw [if_pos hc]; exact h hc
  · rw [if_neg hc]
    simp only [actledPi.LOW, ne_eq, not_true_eq_false, if_false]
    exact lastWritten_snoc_same _ _ _

theorem actled_out_last (e : actledPi.Env) (b : Bool) (s : actledPi.State) (status : Int) :
    actledPi.lastWritten actledPi.ACTLED (actledPi.out e b s status).log
      = actledPi.lastWritten actledPi.ACTLED s.log := by
  unfold actledPi.out
  cases b <;> cases e.restore <;> simp
  exact lastWritten_snoc_other _ _ _ _ (by decide)

theorem actled_started_offCached : actledPi.OffCached actledPi.started := by
  intro _; decide

theorem actled_started_last :
    actledPi.lastWritten actledPi.ACTLED actledPi.started.log = some "0\n" := by decide

theorem actled_main_started (e : actledPi.Env) (h0 : e.argp_parse = 0) (h1 : e.vmstat = true)
    (h2 : e.trigger = true) (h3 : e.actled = true) :
    actledPi.main e =
      if (actledPi.activity e.abi e.priming actledPi.started).1 < 0 then
        actledPi.out e true (actledPi.activity e.abi e.priming actledPi.started).2 EXIT_FAILURE
      else if e.o_detach ≠ 0 ∧ e.child < 0 then
        actledPi.out e true (actledPi.activity e.abi e.priming actledPi.started).2 EXIT_FAILURE
      else if e.o_detach ≠ 0 ∧ e.child ≠ 0 then
        actledPi.out e true (actledPi.activity e.abi e.priming actledPi.started).2 EXIT_SUCCESS
      else
        actledPi.out e true (actledPi.led actledPi.LOW (actledPi.loop e.abi e.ticks
          (actledPi.activity e.abi e.priming actledPi.started).2)) EXIT_SUCCESS := by
  simp [actledPi.main, h0, h1, h2, h3, actledPi.started]

/-- C3. Shutdown guarantees output off, in `actledPi.c`: in every run of
`main` that initialised the sink, whatever the samples are and however the
poll loop is left (`running` found cleared after any number of turns,
`nanosleep` interrupted, `activity` negative) or not entered at all, the last
string written to the brightness file is `"0\n"`. -/
theorem C3_shutdown_output_off (e : actledPi.Env) (h0 : e.argp_parse = 0)
    (h1 : e.vmstat = true) (h2 : e.trigger = true) (h3 : e.actled = true) :
    actledPi.lastWritten actledPi.ACTLED (actledPi.main e).log = some "0\n" := by
  rw [actled_main_started e h0 h1 h2 h3]
  have hlog := (actled_activity_log e.abi e.priming actledPi.started).1
  have hinv := actled_activity_offCached e.abi e.priming _ actled_started_offCached
  split_ifs
  · rw [actled_out_last, hlog]; exact actled_started_last
  · rw [actled_out_last, hlog]; exact actled_started_last
  · rw [actled_out_last, hlog]; exact actled_started_last
  · rw [actled_out_last]
    exact actled_led_LOW_last _ (actled_loop_offCached _ _ _ hinv)

/-- Witness of C3: a run whose loop switches the LED on and is then left
because `nanosleep` is interrupted. -/
theorem C3_shutdown_output_off_witness :
    actledPi.lastWritten actledPi.ACTLED
      (actledPi.main { priming := passOf "pgpgin 10\npgpgout 5\n",
                       ticks := [Tick.poll (passOf "pgpgin 12\npgpgout 5\n"),
                                 Tick.interrupted] }).log = some "0\n" :=
  C3_shutdown_output_off _ rfl rfl rfl rfl

/-! ## Teardown -/

theorem writable_modes :
    writable "rw" = false ∧ writable "r" = false ∧ writable "w" = true ∧
    writable "r+" = true ∧ writable "rbcmxe+" = true ∧ writable "rbcmxew+" = false := by
  decide

/-- C5. Evaluation of `activity` of `actledPi.c` on inputs without a
`pgpgin <number>` line: on a key without value, and on a truncated last line
that is a prefix of the key, `sscanf` returns `EOF`, which counts as found, so
the call does not return -1: it returns 1 after comparing, and it stores,
the value that the variable `pgpgin` happened to hold (`junk`, as an
`unsigned int`). -/
theorem C5_missing_counter_accepted (junk : Nat) :
    sscanf ABI.ilp32 "pgpgin\n".toList "pgpgin %u" = ⟨-1, []⟩ ∧
    sscanf ABI.ilp32 "pgpg".toList "pgpgin %u" = ⟨-1, []⟩ ∧
    actledPi.readCounters ABI.ilp32 { text := "pgpgin\npgpgout 5\n".toList, junk1 := junk }
      = Read.counters (junk % 2 ^ 32) 5 ∧
    actledPi.readCounters ABI.ilp32 { text := "pgpgout 5\npgpg".toList, junk1 := junk }
      = Read.counters (junk % 2 ^ 32) 5 ∧
    actledPi.activity ABI.ilp32 { text := "pgpgin\npgpgout 5\n".toList, junk1 := junk } {}
      = (1, { prev_pgpgin := junk % 2 ^ 32, prev_pgpgout := 5 }) ∧
    hddledPi.activity ABI.ilp32 { text := "pgpgin\npgpgout 5\n".toList, junk1 := junk } {}
      = (1, { prev_pgpgin := junk % 2 ^ 32, prev_pgpgout := 5 }) := by
  have h1 : actledPi.readCounters ABI.ilp32 { text := "pgpgin\npgpgout 5\n".toList, junk1 := junk }
      = Read.counters (junk % 2 ^ 32) 5 := by rfl
  have h2 : actledPi.readCounters ABI.ilp32 { text := "pgpgout 5\npgpg".toList, junk1 := junk }
      = Read.counters (junk % 2 ^ 32) 5 := by rfl
  have h3 : actledPi.activity ABI.ilp32
      { text := "pgpgin\npgpgout 5\n".toList, junk1 := junk } {}
      = (1, { prev_pgpgin := junk % 2 ^ 32, prev_pgpgout := 5 }) := by
    rw [actled_activity_of_counters _ _ _ _ _ h1]
    simp
  exact ⟨by decide, by decide, h1, h2, h3, h3⟩

/-- C6. Evaluation of `activity` of `netledPi.c`: on the rows of the
specification (100 and 50 packets in, loopback 9999) the aggregates are 150
in and 100 out; but a row of the device `hello`, which is not the loopback
device, is skipped because `strstr` finds `lo:` in `hello:`, so that with
`eth0` (100 in) and `hello` (50 in) the aggregate is 100 and not 150. -/
theorem C6_device_ending_in_lo_skipped :
    netledPi.readCounters ABI.ilp32 (passOf
      (" eth0: 1000 100 0 0 0 0 0 0 2000 70 0 0 0 0 0 0\n" ++
       "wlan0: 1000 50 0 0 0 0 0 0 2000 30 0 0 0 0 0 0\n" ++
       "   lo: 1000 9999 0 0 0 0 0 0 2000 9999 0 0 0 0 0 0\n"))
      = some (Read.counters 150 100) ∧
    strstr "hello:".toList "lo:".toList = true ∧
    netledPi.readCounters ABI.ilp32 (passOf
      (" eth0: 1000 100 0 0 0 0 0 0 2000 70 0 0 0 0 0 0\n" ++
       " hello: 1000 50 0 0 0 0 0 0 2000 30 0 0 0 0 0 0\n" ++
       "   lo: 1000 9999 0 0 0 0 0 0 2000 9999 0 0 0 0 0 0\n"))
      = some (Read.counters 100 70) := by
  refine ⟨by decide, by decide, by decide⟩

/-! ### Lines of `key value` text -/

theorem getlines_append (l rest : List Char) (h : ∀ c ∈ l, c ≠ NL) :
    getlines (l ++ NL :: rest) = (l ++ [NL]) :: getlines rest := by
  induction l with
  | nil => simp [getlines]
  | cons c l ih =>
    have hc : c ≠ NL := h c (List.mem_cons_self _ _)
    have ih2 := ih (fun d hd => h d (List.mem_cons_of_mem _ hd))
    rw [List.cons_append, getlines, if_neg hc, ih2]
    rfl

theorem isWord_mem (w : List Char) (h : isWord w = true) :
    w ≠ [] ∧ ∀ c ∈ w, isspace c = false ∧ c ≠ NUL := by
  simp only [isWord, Bool.and_eq_true, Bool.not_eq_true', List.isEmpty_eq_false,
    List.all_eq_true, bne_iff_ne, ne_eq] at h
  simpa using h

theorem isBlank_mem (b : List Char) (h : isBlank b = true) :
    b ≠ [] ∧ ∀ c ∈ b, c.toNat = 32 ∨ c.toNat = 9 := by
  simp only [isBlank, Bool.and_eq_true, Bool.not_eq_true', List.isEmpty_eq_false,
    List.all_eq_true, Bool.or_eq_true, decide_eq_true_eq] at h
  simpa using h

theorem isNumeral_mem (w : List Char) (h : isNumeral w = true) :
    w ≠ [] ∧ ∀ c ∈ w, isdigit c = true := by
  simp only [isNumeral, Bool.and_eq_true, Bool.not_eq_true', List.isEmpty_eq_false,
    List.all_eq_true] at h
  simpa using h

theorem NL_toNat : NL.toNat = 10 := by decide
theorem NUL_toNat : NUL.toNat = 0 := by decide

theorem isspace_iff (c : Char) : isspace c = true ↔ (c.toNat = 32 ∨ (9 ≤ c.toNat ∧ c.toNat ≤ 13)) := by
  simp [isspace]

theorem isdigit_iff (c : Char) : isdigit c = true ↔ (48 ≤ c.toNat ∧ c.toNat ≤ 57) := by
  simp [isdigit]

theorem cstr_eq_self (l : List Char) (h : ∀ c ∈ l, c ≠ NUL) : cstr l = l := by
  unfold cstr
  rw [List.takeWhile_eq_self_iff]
  intro c hc
  simpa using h c hc

theorem scan_lits_match (abi : ABI) (ds : List Directive) (done : Nat) (args : List Arg)
    (name rest : List Char) :
    scanDirectives abi (name.map Directive.lit ++ ds) (name ++ rest) done args
      = scanDirectives abi ds rest done args := by
  induction name with
  | nil => rfl
  | cons c cs ih => simpa [scanDirectives] using ih

theorem scan_lits_mismatch (abi : ABI) (ds : List Directive) (done : Nat) (args : List Arg)
    (b : Char) (more : List Char) (name : List Char) (hb : ∀ c ∈ name, c ≠ b) :
    ∀ key : List Char, name.isPrefixOf key = false →
      scanDirectives abi (name.map Directive.lit ++ ds) (key ++ b :: more) done args
        = ⟨done, args⟩ := by
  induction name with
  | nil => intro key h; simp at h
  | cons c cs ih =>
    intro key h
    have hcs : ∀ d ∈ cs, d ≠ b := fun d hd => hb d (List.mem_cons_of_mem _ hd)
    cases key with
    | nil =>
      have hbc : ¬ b = c := fun e => hb c (List.mem_cons_self _ _) e.symm
      simp [scanDirectives, hbc]
    | cons k ks =>
      by_cases hk : k = c
      · subst hk
        have h2 : cs.isPrefixOf ks = false := by simpa [List.isPrefixOf] using h
        simpa [scanDirectives] using ih hcs ks h2
      · simp [scanDirectives, hk]

theorem isPrefixOf_split (name key : List Char) (h : name.isPrefixOf key = true) :
    key = name ++ key.drop name.length := by
  induction name generalizing key with
  | nil => simp
  | cons c cs ih =>
    cases key with
    | nil => simp [List.isPrefixOf] at h
    | cons k ks =>
      simp only [List.isPrefixOf, Bool.and_eq_true, beq_iff_eq] at h
      obtain ⟨h1, h2⟩ := h
      subst h1
      simp only [List.length_cons, List.drop_succ_cons, List.cons_append, List.cons.injEq, true_and]
      exact ih ks h2

theorem digit_not_space (c : Char) (h : isdigit c = true) : isspace c = false := by
  have := (isdigit_iff c).mp h
  cases hs : isspace c
  · rfl
  · have := (isspace_iff c).mp hs
    omega

theorem scanUnsigned_numeral (abi : ABI) (ds : List Char) (hn : isNumeral ds = true)
    (hv : digitsVal ds < 2 ^ 32) :
    scanUnsigned abi (ds ++ [NL]) = some (digitsVal ds, [NL]) := by
  obtain ⟨hne, hd⟩ := isNumeral_mem ds hn
  cases ds with
  | nil => exact absurd rfl hne
  | cons c cs =>
    have hc := (isdigit_iff c).mp (hd c (List.mem_cons_self _ _))
    have hminus : ¬ c = '-' := fun e => by rw [e] at hc; revert hc; decide
    have hplus : ¬ c = '+' := fun e => by rw [e] at hc; revert hc; decide
    have hNL : isdigit NL = false := by decide
    have htake : List.takeWhile isdigit (c :: cs ++ [NL]) = c :: cs := by
      rw [List.takeWhile_append_of_pos hd]
      simp [List.takeWhile, hNL]
    have hdrop : List.dropWhile isdigit (c :: cs ++ [NL]) = [NL] := by
      rw [List.dropWhile_append_of_pos hd]
      simp [List.dropWhile, hNL]
    have hle : ¬ digitsVal (c :: cs) > abi.ULONG_MAX := by
      cases abi <;> simp only [ABI.ULONG_MAX] <;> omega
    have hmod : digitsVal (c :: cs) % UINT_MOD = digitsVal (c :: cs) :=
      Nat.mod_eq_of_lt (by simpa [UINT_MOD] using hv)
    simp only [scanUnsigned, List.cons_append, List.head?_cons, Option.some.injEq, hminus, hplus,
      decide_False, Bool.or_self, Bool.false_eq_true, if_false]
    rw [← List.cons_append, htake, hdrop]
    simp [strtoul, hle, hmod]

theorem blank_props (c : Char) (h : c.toNat = 32 ∨ c.toNat = 9) :
    isspace c = true ∧ isdigit c = false ∧ c ≠ NUL ∧ c ≠ NL := by
  refine ⟨(isspace_iff c).mpr (by omega), ?_, ?_, ?_⟩
  · cases hd : isdigit c
    · rfl
    · have := (isdigit_iff c).mp hd; omega
  · intro e; rw [e, NUL_toNat] at h; omega
  · intro e; rw [e, NL_toNat] at h; omega

theorem word_props (c : Char) (h : isspace c = false ∧ c ≠ NUL) : c ≠ NUL ∧ c ≠ NL := by
  refine ⟨h.2, ?_⟩
  intro e
  have : isspace NL = true := by decide
  rw [e, this] at h
  exact absurd h.1 (by decide)

theorem line_no_NUL (r : Row) (hwf : r.wellFormed = true) : ∀ c ∈ r.line, c ≠ NUL := by
  simp only [Row.wellFormed, Bool.and_eq_true] at hwf
  obtain ⟨⟨hk, hs⟩, hv⟩ := hwf
  intro c hc
  simp only [Row.line, List.mem_append, List.mem_singleton] at hc
  rcases hc with hc | hc | hc | hc
  · exact ((isWord_mem _ hk).2 c hc).2
  · exact (blank_props c ((isBlank_mem _ hs).2 c hc)).2.2.1
  · exact ((isWord_mem _ hv).2 c hc).2
  · rw [hc]; decide

theorem scan_number_after_blank (abi : ABI) (sep val : List Char) (hs : isBlank sep = true)
    (hnum : isNumeral val = true) (hv : digitsVal val < 2 ^ 32) :
    scanDirectives abi [Directive.space, Directive.conv false 'u'] (sep ++ (val ++ [NL])) 0 []
      = ⟨1, [Arg.uint (digitsVal val)]⟩ := by
  obtain ⟨hne, hd⟩ := isNumeral_mem val hnum
  have hsp : ∀ c ∈ sep, isspace c = true :=
    fun c hc => (blank_props c ((isBlank_mem _ hs).2 c hc)).1
  have hscan := scanUnsigned_numeral abi val hnum hv
  cases val with
  | nil => exact absurd rfl hne
  | cons c cs =>
    have hc : isspace c = false := digit_not_space c (hd c (List.mem_cons_self _ _))
    have hdrop : List.dropWhile isspace (sep ++ (c :: cs ++ [NL])) = c :: (cs ++ [NL]) := by
      rw [List.dropWhile_append_of_pos hsp]
      simp [List.dropWhile, hc]
    have hdrop2 : List.dropWhile isspace (c :: (cs ++ [NL])) = c :: (cs ++ [NL]) := by
      simp [List.dropWhile, hc]
    have hus : ¬ ('u' = 's') := by decide
    rw [scanDirectives, hdrop, scanDirectives, hdrop2]
    simp only [hus, if_false, if_true]
    rw [← List.cons_append, hscan]
    simp [scanDirectives]

theorem sscanf_row_match (abi : ABI) (name fmt : String)
    (hfmt : parseFormat fmt.toList
      = name.toList.map Directive.lit ++ [Directive.space, Directive.conv false 'u'])
    (r : Row) (hwf : r.wellFormed = true) (hkey : r.key = name.toList)
    (hnum : isNumeral r.value = true) (hv : digitsVal r.value < 2 ^ 32) :
    sscanf abi r.line fmt = ⟨1, [Arg.uint (digitsVal r.value)]⟩ := by
  have hs : isBlank r.sep = true := by
    simp only [Row.wellFormed, Bool.and_eq_true] at hwf; exact hwf.1.2
  unfold sscanf
  rw [cstr_eq_self _ (line_no_NUL r hwf), hfmt, Row.line, hkey, scan_lits_match]
  exact scan_number_after_blank abi r.sep r.value hs hnum hv

theorem scanUnsigned_not_number (abi : ABI) (t more : List Char) (b : Char)
    (hb : isdigit b = false) (ht : startsNumber t = false) (hne : t ≠ []) :
    scanUnsigned abi (t ++ b :: more) = none := by
  cases t with
  | nil => exact absurd rfl hne
  | cons c t1 =>
    cases t1 with
    | nil =>
      have hc : isdigit c = false := by simpa [startsNumber] using ht
      by_cases hsign : c = '-' ∨ c = '+'
      · rcases hsign with e | e <;> subst e <;> simp [scanUnsigned, List.takeWhile, hb]
      · push_neg at hsign
        simp [scanUnsigned, hsign.1, hsign.2, List.takeWhile, hc]
    | cons d t2 =>
      simp only [startsNumber, Bool.or_eq_false_iff, Bool.and_eq_false_imp, Bool.or_eq_true,
        decide_eq_true_eq] at ht
      obtain ⟨hc, hd⟩ := ht
      by_cases hsign : c = '-' ∨ c = '+'
      · have hd2 := hd hsign
        rcases hsign with e | e <;> subst e <;> simp [scanUnsigned, List.takeWhile, hd2]
      · push_neg at hsign
        simp [scanUnsigned, hsign.1, hsign.2, List.takeWhile, hc]

theorem sscanf_row_other (abi : ABI) (name fmt : String)
    (hfmt : parseFormat fmt.toList
      = name.toList.map Directive.lit ++ [Directive.space, Directive.conv false 'u'])
    (hname : ∀ c ∈ name.toList, c.toNat ≠ 32 ∧ c.toNat ≠ 9)
    (r : Row) (hwf : r.wellFormed = true) (hkey : r.key ≠ name.toList)
    (hsh : shadows name r.key = false) :
    sscanf abi r.line fmt = ⟨0, []⟩ := by
  have hwf2 := hwf
  simp only [Row.wellFormed, Bool.and_eq_true] at hwf2
  obtain ⟨⟨hk, hs⟩, -⟩ := hwf2
  obtain ⟨hsne, hsb⟩ := isBlank_mem _ hs
  obtain ⟨-, hkw⟩ := isWord_mem _ hk
  unfold sscanf
  rw [cstr_eq_self _ (line_no_NUL r hwf), hfmt, Row.line]
  cases hsep : r.sep with
  | nil => exact absurd hsep hsne
  | cons b bs =>
    have hbb : b.toNat = 32 ∨ b.toNat = 9 := hsb b (by rw [hsep]; exact List.mem_cons_self _ _)
    have hbp := blank_props b hbb
    cases hp : name.toList.isPrefixOf r.key
    · apply scan_lits_mismatch abi _ 0 [] b _ name.toList _ r.key hp
      intro c hc e
      have := hname c hc
      rw [e] at this
      omega
    · have hsplit := isPrefixOf_split _ _ hp
      have hlen : name.toList.length = name.length := rfl
      have hst : startsNumber (r.key.drop name.toList.length) = false := by
        unfold shadows at hsh
        rw [hp, Bool.true_and] at hsh
        exact hsh
      have htne : r.key.drop name.toList.length ≠ [] := by
        intro e
        rw [e, List.append_nil] at hsplit
        exact hkey hsplit
      generalize r.key.drop name.toList.length = t at hsplit hst htne
      rw [hsplit, List.append_assoc, scan_lits_match]
      have hkw2 : ∀ c ∈ t, isspace c = false := fun c hc =>
        (hkw c (by rw [hsplit]; exact List.mem_append_right _ hc)).1
      cases t with
      | nil => exact absurd rfl htne
      | cons c t1 =>
        have hc : isspace c = false := hkw2 c (List.mem_cons_self _ _)
        have hdrop : List.dropWhile isspace (c :: t1 ++ (b :: bs ++ (r.value ++ [NL])))
            = c :: t1 ++ (b :: bs ++ (r.value ++ [NL])) := by
          simp [List.dropWhile, hc]
        have hus : ¬ ('u' = 's') := by decide
        have hscan := scanUnsigned_not_number abi (c :: t1) (bs ++ (r.value ++ [NL])) b
          hbp.2.1 hst htne
        rw [scanDirectives, hdrop, scanDirectives, hdrop]
        simp only [List.cons_append, hus, if_false, if_true]
        simp only [List.cons_append] at hscan
        rw [hscan]
        rfl

theorem format_pgpgin : parseFormat "pgpgin %u".toList
    = "pgpgin".toList.map Directive.lit ++ [Directive.space, Directive.conv false 'u'] := by
  decide

theorem format_pgpgout : parseFormat "pgpgout %u".toList
    = "pgpgout".toList.map Directive.lit ++ [Directive.space, Directive.conv false 'u'] := by
  decide

theorem name_pgpgin : ∀ c ∈ "pgpgin".toList, c.toNat ≠ 32 ∧ c.toNat ≠ 9 := by decide

theorem name_pgpgout : ∀ c ∈ "pgpgout".toList, c.toNat ≠ 32 ∧ c.toNat ≠ 9 := by decide

theorem scanLine_pgpgin (abi : ABI) (n m : Nat) (hn : n < 2 ^ 32) (r : Row) (h : RowOk n m r)
    (hkey : r.key = "pgpgin".toList) (l : actledPi.Locals) :
    actledPi.scanLine abi r.line l
      = { l with pgpgin := n, found_pgpgin := l.found_pgpgin + 1 } := by
  obtain ⟨hwf, -, -, hin, -⟩ := h
  obtain ⟨hnum, hval⟩ := hin hkey
  have hs := sscanf_row_match abi "pgpgin" "pgpgin %u" format_pgpgin r hwf hkey hnum
    (by rw [hval]; exact hn)
  simp [actledPi.scanLine, hs, actledPi.stored, hval]

theorem scanLine_pgpgout (abi : ABI) (n m : Nat) (hm : m < 2 ^ 32) (r : Row) (h : RowOk n m r)
    (hkey : r.key = "pgpgout".toList) (l : actledPi.Locals) :
    actledPi.scanLine abi r.line l
      = { l with pgpgout := m, found_pgpgout := l.found_pgpgout + 1 } := by
  obtain ⟨hwf, hsh, -, -, hout⟩ := h
  obtain ⟨hnum, hval⟩ := hout hkey
  have hne : r.key ≠ "pgpgin".toList := by rw [hkey]; decide
  have h1 := sscanf_row_other abi "pgpgin" "pgpgin %u" format_pgpgin name_pgpgin r hwf hne hsh
  have h2 := sscanf_row_match abi "pgpgout" "pgpgout %u" format_pgpgout r hwf hkey hnum
    (by rw [hval]; exact hm)
  simp [actledPi.scanLine, h1, h2, actledPi.stored, hval]

theorem scanLine_other (abi : ABI) (n m : Nat) (r : Row) (h : RowOk n m r)
    (hk1 : r.key ≠ "pgpgin".toList) (hk2 : r.key ≠ "pgpgout".toList) (l : actledPi.Locals) :
    actledPi.scanLine abi r.line l = l := by
  obtain ⟨hwf, hsh1, hsh2, -, -⟩ := h
  have h1 := sscanf_row_other abi "pgpgin" "pgpgin %u" format_pgpgin name_pgpgin r hwf hk1 hsh1
  have h2 := sscanf_row_other abi "pgpgout" "pgpgout %u" format_pgpgout name_pgpgout r hwf hk2 hsh2
  simp [actledPi.scanLine, h1, h2]

theorem scanLines_rows (abi : ABI) (n m : Nat) (hn : n < 2 ^ 32) (hm : m < 2 ^ 32)
    (rows : List Row) :
    ∀ l : actledPi.Locals, (∀ r ∈ rows, RowOk n m r) →
      (l.found_pgpgin ≠ 0 → l.pgpgin = n) → (l.found_pgpgout ≠ 0 → l.pgpgout = m) →
      (l.found_pgpgin = 0 → ∃ r ∈ rows, r.key = "pgpgin".toList) →
      (l.found_pgpgout = 0 → ∃ r ∈ rows, r.key = "pgpgout".toList) →
      (actledPi.scanLines abi (rows.map Row.line) l).found_pgpgin ≠ 0 ∧
      (actledPi.scanLines abi (rows.map Row.line) l).found_pgpgout ≠ 0 ∧
      (actledPi.scanLines abi (rows.map Row.line) l).pgpgin = n ∧
      (actledPi.scanLines abi (rows.map Row.line) l).pgpgout = m := by
  induction rows with
  | nil =>
    intro l _ h1 h2 h3 h4
    have f1 : l.found_pgpgin ≠ 0 := fun e => by obtain ⟨r, hr, -⟩ := h3 e; cases hr
    have f2 : l.found_pgpgout ≠ 0 := fun e => by obtain ⟨r, hr, -⟩ := h4 e; cases hr
    exact ⟨f1, f2, h1 f1, h2 f2⟩
  | cons r rest ih =>
    intro l hok h1 h2 h3 h4
    have hr : RowOk n m r := hok r (List.mem_cons_self _ _)
    have hrest : ∀ x ∈ rest, RowOk n m x := fun x hx => hok x (List.mem_cons_of_mem _ hx)
    rw [List.map_cons, actledPi.scanLines]
    have hdiff : "pgpgin".toList ≠ "pgpgout".toList := by decide
    by_cases hk1 : r.key = "pgpgin".toList
    · rw [scanLine_pgpgin abi n m hn r hr hk1 l]
      split_ifs with hb
      · exact ⟨hb.1, hb.2, rfl, h2 hb.2⟩
      · apply ih _ hrest
        · intro _; rfl
        · exact h2
        · intro e; simp at e
        · intro e
          obtain ⟨x, hx, hxk⟩ := h4 e
          rcases List.mem_cons.mp hx with hx | hx
          · rw [hx, hk1] at hxk; exact absurd hxk hdiff
          · exact ⟨x, hx, hxk⟩
    · by_cases hk2 : r.key = "pgpgout".toList
      · rw [scanLine_pgpgout abi n m hm r hr hk2 l]
        split_ifs with hb
        · exact ⟨hb.1, hb.2, h1 hb.1, rfl⟩
        · apply ih _ hrest
          · exact h1
          · intro _; rfl
          · intro e
            obtain ⟨x, hx, hxk⟩ := h3 e
            rcases List.mem_cons.mp hx with hx | hx
            · rw [hx] at hxk; exact absurd hxk hk1
            · exact ⟨x, hx, hxk⟩
          · intro e; simp at e
      · rw [scanLine_other abi n m r hr hk1 hk2 l]
        split_ifs with hb
        · exact ⟨hb.1, hb.2, h1 hb.1, h2 hb.2⟩
        · apply ih _ hrest h1 h2
          · intro e
            obtain ⟨x, hx, hxk⟩ := h3 e
            rcases List.mem_cons.mp hx with hx | hx
            · rw [hx] at hxk; exact absurd hxk hk1
            · exact ⟨x, hx, hxk⟩
          · intro e
            obtain ⟨x, hx, hxk⟩ := h4 e
            rcases List.mem_cons.mp hx with hx | hx
            · rw [hx] at hxk; exact absurd hxk hk2
            · exact ⟨x, hx, hxk⟩

theorem getlines_vmstatText (rows : List Row) (hwf : ∀ r ∈ rows, r.wellFormed = true) :
    getlines (vmstatText rows) = rows.map Row.line := by
  induction rows with
  | nil => rfl
  | cons r rest ih =>
    have hr := hwf r (List.mem_cons_self _ _)
    simp only [Row.wellFormed, Bool.and_eq_true] at hr
    obtain ⟨⟨hk, hs⟩, hv⟩ := hr
    have hno : ∀ c ∈ r.key ++ (r.sep ++ r.value), c ≠ NL := by
      intro c hc
      simp only [List.mem_append] at hc
      rcases hc with hc | hc | hc
      · exact (word_props c ((isWord_mem _ hk).2 c hc)).2
      · exact (blank_props c ((isBlank_mem _ hs).2 c hc)).2.2.2
      · exact (word_props c ((isWord_mem _ hv).2 c hc)).2
    have h1 : vmstatText (r :: rest) = (r.key ++ (r.sep ++ r.value)) ++ NL :: vmstatText rest := by
      simp [vmstatText, Row.line]
    have h2 : r.line = (r.key ++ (r.sep ++ r.value)) ++ [NL] := by
      simp [Row.line]
    rw [h1, getlines_append _ _ hno, List.map_cons, h2,
      ih (fun x hx => hwf x (List.mem_cons_of_mem _ hx))]

theorem valuesOf_mem (name : String) (rows : List Row) (v : List Char)
    (h : valuesOf name rows = [v]) :
    (∀ r ∈ rows, r.key = name.toList → r.value = v) ∧ (∃ r ∈ rows, r.key = name.toList) := by
  unfold valuesOf at h
  constructor
  · intro r hr hk
    have hm : r.value ∈ (rows.filter (fun r => r.key = name.toList)).map Row.value :=
      List.mem_map.mpr ⟨r, List.mem_filter.mpr ⟨hr, by simpa using hk⟩, rfl⟩
    rw [h] at hm
    simpa using hm
  · have hm : v ∈ (rows.filter (fun r => r.key = name.toList)).map Row.value := by
      rw [h]; exact List.mem_singleton_self v
    obtain ⟨r, hr, -⟩ := List.mem_map.mp hm
    obtain ⟨hr1, hr2⟩ := List.mem_filter.mp hr
    exact ⟨r, hr1, by simpa using hr2⟩

/-- C7, as the claim states it, fails: in the text below every line is a
`key value` line, exactly one is `pgpgin 10` and exactly one is `pgpgout 5`,
and `activity` compares and stores (7, 5), because `sscanf` with the format
`"pgpgin %u"` reads the 7 of the key `pgpgin7`. -/
theorem C7_numbered_key_read_as_counter :
    (∀ r ∈ [Row.mk "pgpgout".toList [' '] "5".toList, Row.mk "pgpgin7".toList [' '] "1".toList,
            Row.mk "pgpgin".toList [' '] "10".toList], r.wellFormed = true) ∧
    valuesOf "pgpgin"
      [Row.mk "pgpgout".toList [' '] "5".toList, Row.mk "pgpgin7".toList [' '] "1".toList,
       Row.mk "pgpgin".toList [' '] "10".toList] = ["10".toList] ∧
    valuesOf "pgpgout"
      [Row.mk "pgpgout".toList [' '] "5".toList, Row.mk "pgpgin7".toList [' '] "1".toList,
       Row.mk "pgpgin".toList [' '] "10".toList] = ["5".toList] ∧
    digitsVal "10".toList = 10 ∧ digitsVal "5".toList = 5 ∧
    vmstatText
      [Row.mk "pgpgout".toList [' '] "5".toList, Row.mk "pgpgin7".toList [' '] "1".toList,
       Row.mk "pgpgin".toList [' '] "10".toList] = "pgpgout 5\npgpgin7 1\npgpgin 10\n".toList ∧
    actledPi.readCounters ABI.ilp32 (passOf "pgpgout 5\npgpgin7 1\npgpgin 10\n")
      = Read.counters 7 5 ∧
    actledPi.readCounters ABI.ilp32 (passOf "pgpgout 5\npgpgin7 1\npgpgin 10\n")
      ≠ Read.counters 10 5 := by
  refine ⟨by decide, by decide, by decide, by decide, by decide, by decide, by decide, by decide⟩

/-- C7, amended. Disk sample extraction: on a text of `key value` lines
with exactly one line of key `pgpgin`, of value the numeral `vin` below
`2 ^ 32`, exactly one line of key `pgpgout`, of value the numeral `vout`
below `2 ^ 32`, and no key that is `pgpgin` or `pgpgout` directly followed
by a number, `activity` (rewind and flush succeeding) succeeds, and the
sample it compares and stores is the pair of the two values. -/
theorem C7_disk_sample_extraction (abi : ABI) (rows : List Row) (vin vout : List Char)
    (junk1 junk2 : Nat) (s : actledPi.State)
    (hwf : ∀ r ∈ rows, r.wellFormed = true)
    (hin : valuesOf "pgpgin" rows = [vin]) (hout : valuesOf "pgpgout" rows = [vout])
    (hvin : isNumeral vin = true) (hvout : isNumeral vout = true)
    (hn : digitsVal vin < 2 ^ 32) (hm : digitsVal vout < 2 ^ 32)
    (hsh : ∀ r ∈ rows, shadows "pgpgin" r.key = false ∧ shadows "pgpgout" r.key = false) :
    actledPi.readCounters abi (passOfRows rows junk1 junk2)
      = Read.counters (digitsVal vin) (digitsVal vout) ∧
    0 ≤ (actledPi.activity abi (passOfRows rows junk1 junk2) s).1 ∧
    (actledPi.activity abi (passOfRows rows junk1 junk2) s).2.prev_pgpgin = digitsVal vin ∧
    (actledPi.activity abi (passOfRows rows junk1 junk2) s).2.prev_pgpgout = digitsVal vout := by
  obtain ⟨hin1, hin2⟩ := valuesOf_mem "pgpgin" rows vin hin
  obtain ⟨hout1, hout2⟩ := valuesOf_mem "pgpgout" rows vout hout
  have hok : ∀ r ∈ rows, RowOk (digitsVal vin) (digitsVal vout) r := by
    intro r hr
    refine ⟨hwf r hr, (hsh r hr).1, (hsh r hr).2, ?_, ?_⟩
    · intro hk; rw [hin1 r hr hk]; exact ⟨hvin, rfl⟩
    · intro hk; rw [hout1 r hr hk]; exact ⟨hvout, rfl⟩
  have hscan := scanLines_rows abi _ _ hn hm rows
    ⟨junk1 % UINT_MOD, junk2 % UINT_MOD, 0, 0⟩ hok (fun h => absurd rfl h) (fun h => absurd rfl h)
    (fun _ => hin2) (fun _ => hout2)
  obtain ⟨f1, f2, e1, e2⟩ := hscan
  have hread : actledPi.readCounters abi (passOfRows rows junk1 junk2)
      = Read.counters (digitsVal vin) (digitsVal vout) := by
    unfold actledPi.readCounters passOfRows
    simp only [Bool.not_true, Bool.false_eq_true, if_false, getlines_vmstatText rows hwf]
    rw [if_neg (by intro h; rcases h with h | h; exact f1 h; exact f2 h), e1, e2]
  refine ⟨hread, ?_⟩
  rw [actled_activity_of_counters abi _ s _ _ hread]
  refine ⟨?_, rfl, rfl⟩
  dsimp only
  split <;> decide

/-- Witness of C7, amended: the counters are found after other keys, in the
order out, in, and the key `pgpginx` does not disturb. -/
theorem C7_disk_sample_extraction_witness :
    actledPi.readCounters ABI.lp64
      (passOfRows [Row.mk "nr_free_pages".toList [' '] "3".toList,
                   Row.mk "pgpginx".toList [' '] "4".toList,
                   Row.mk "pgpgout".toList [' ', ' '] "9".toList,
                   Row.mk "pgpgin".toList [' '] "12".toList] 7 7)
      = Read.counters 12 9 :=
  (C7_disk_sample_extraction ABI.lp64
    [Row.mk "nr_free_pages".toList [' '] "3".toList,
     Row.mk "pgpginx".toList [' '] "4".toList,
     Row.mk "pgpgout".toList [' ', ' '] "9".toList,
     Row.mk "pgpgin".toList [' '] "12".toList] "12".toList "9".toList 7 7 {}
    (by decide) (by decide) (by decide) (by decide) (by decide) (by decide) (by decide)
    (by decide)).1

/-! ## Exit status -/

theorem actled_readCounters_cases (abi : ABI) (f : Pass) :
    (∃ c1 c2, actledPi.readCounters abi f = Read.counters c1 c2) ∨
    actledPi.readCounters abi f = Read.fail (-1) := by
  unfold actledPi.readCounters
  dsimp only
  generalize actledPi.scanLines abi _ _ = l
  split_ifs
  · right; rfl
  · right; rfl
  · right; rfl
  · left; exact ⟨_, _, rfl⟩

theorem actled_activity_neg_iff (abi : ABI) (f : Pass) (s : actledPi.State) :
    (actledPi.activity abi f s).1 < 0 ↔
      ¬ ∃ c1 c2, actledPi.readCounters abi f = Read.counters c1 c2 := by
  rcases actled_readCounters_cases abi f with ⟨c1, c2, h⟩ | h
  · rw [actled_activity_of_counters abi f s c1 c2 h]
    constructor
    · intro hlt; exfalso; revert hlt; dsimp only; split <;> decide
    · intro hn; exact absurd ⟨c1, c2, h⟩ hn
  · simp [actledPi.activity, h]

theorem actled_out_status (e : actledPi.Env) (b : Bool) (s : actledPi.State) (status : Int)
    (hr : e.restore = true) : (actledPi.out e b s status).status = some status := by
  unfold actledPi.out
  cases b <;> simp [hr]

theorem hddled_main_started (e : hddledPi.Env) (h0 : e.argp_parse = 0) (h1 : e.vmstat = true) :
    hddledPi.main e =
      if (actledPi.activity e.abi e.priming (hddledPi.started e.o_gpiopin)).1 < 0 then
        ⟨(actledPi.activity e.abi e.priming (hddledPi.started e.o_gpiopin)).2.log,
          some EXIT_FAILURE⟩
      else if e.o_detach ≠ 0 ∧ e.child < 0 then
        ⟨(actledPi.activity e.abi e.priming (hddledPi.started e.o_gpiopin)).2.log,
          some EXIT_FAILURE⟩
      else if e.o_detach ≠ 0 ∧ e.child ≠ 0 then
        ⟨(actledPi.activity e.abi e.priming (hddledPi.started e.o_gpiopin)).2.log,
          some EXIT_SUCCESS⟩
      else
        ⟨(hddledPi.led e.o_gpiopin hddledPi.LOW (hddledPi.loop e.abi e.o_gpiopin e.ticks
          (actledPi.activity e.abi e.priming (hddledPi.started e.o_gpiopin)).2)).log,
          some EXIT_SUCCESS⟩ := by
  simp [hddledPi.main, h0, h1, hddledPi.started, hddledPi.activity]

theorem actled_main_status (e : actledPi.Env) (hr : e.restore = true) :
    (actledPi.SetupOk e → (actledPi.main e).status = some EXIT_SUCCESS) ∧
    (¬ actledPi.SetupOk e → (actledPi.main e).status = some EXIT_FAILURE) := by
  by_cases h0 : e.argp_parse = 0
  swap
  · exact ⟨fun h => absurd h.1 h0, fun _ => by simp [actledPi.main, h0, actledPi.out]⟩
  by_cases h1 : e.vmstat = true
  swap
  · exact ⟨fun h => absurd h.2.1 h1, fun _ => by simp [actledPi.main, h0, h1, actledPi.out]⟩
  by_cases h2 : e.trigger = true
  swap
  · exact ⟨fun h => absurd h.2.2.1 h2, fun _ => by simp [actledPi.main, h0, h1, h2, actledPi.out]⟩
  by_cases h3 : e.actled = true
  swap
  · exact ⟨fun h => absurd h.2.2.2.1 h3,
      fun _ => by simp [actledPi.main, h0, h1, h2, h3, actledPi.out]⟩
  rw [actled_main_started e h0 h1 h2 h3]
  have hneg := actled_activity_neg_iff e.abi e.priming actledPi.started
  constructor
  · rintro ⟨-, -, -, -, hp, hf⟩
    have hnn : ¬ (actledPi.activity e.abi e.priming actledPi.started).1 < 0 :=
      fun hlt => hneg.mp hlt hp
    rw [if_neg hnn, if_neg hf]
    split_ifs <;> exact actled_out_status e _ _ _ hr
  · intro hns
    by_cases hlt : (actledPi.activity e.abi e.priming actledPi.started).1 < 0
    · rw [if_pos hlt]; exact actled_out_status e _ _ _ hr
    · rw [if_neg hlt]
      have hp : ∃ c1 c2, actledPi.readCounters e.abi e.priming = Read.counters c1 c2 := by
        by_contra hc; exact hlt (hneg.mpr hc)
      have hf : e.o_detach ≠ 0 ∧ e.child < 0 := by
        by_contra hc; exact hns ⟨h0, h1, h2, h3, hp, hc⟩
      rw [if_pos hf]; exact actled_out_status e _ _ _ hr

theorem hddled_main_status (e : hddledPi.Env) :
    (hddledPi.SetupOk e → (hddledPi.main e).status = some EXIT_SUCCESS) ∧
    (¬ hddledPi.SetupOk e → (hddledPi.main e).status = some EXIT_FAILURE) := by
  by_cases h0 : e.argp_parse = 0
  swap
  · exact ⟨fun h => absurd h.1 h0, fun _ => by simp [hddledPi.main, h0]⟩
  by_cases h1 : e.vmstat = true
  swap
  · exact ⟨fun h => absurd h.2.1 h1, fun _ => by simp [hddledPi.main, h0, h1]⟩
  rw [hddled_main_started e h0 h1]
  have hneg := actled_activity_neg_iff e.abi e.priming (hddledPi.started e.o_gpiopin)
  constructor
  · rintro ⟨-, -, hp, hf⟩
    have hnn : ¬ (actledPi.activity e.abi e.priming (hddledPi.started e.o_gpiopin)).1 < 0 :=
      fun hlt => hneg.mp hlt hp
    rw [if_neg hnn, if_neg hf]
    split_ifs <;> rfl
  · intro hns
    by_cases hlt : (actledPi.activity e.abi e.priming (hddledPi.started e.o_gpiopin)).1 < 0
    · rw [if_pos hlt]
    · rw [if_neg hlt]
      have hp : ∃ c1 c2, actledPi.readCounters e.abi e.priming = Read.counters c1 c2 := by
        by_contra hc; exact hlt (hneg.mpr hc)
      have hf : e.o_detach ≠ 0 ∧ e.child < 0 := by
        by_contra hc; exact hns ⟨h0, h1, hp, hc⟩
      rw [if_pos hf]

/-- C8, as the claim states it, fails: when the counter file cannot be
opened, `main` of `actledPi.c` and of `hddledPi.c` returns `EXIT_FAILURE`,
which is 1 and not 0. -/
theorem C8_setup_failure_status_nonzero :
    (actledPi.main { vmstat := false, priming := passOf "", ticks := [] }).status = some 1 ∧
    (hddledPi.main { vmstat := false, priming := passOf "", ticks := [] }).status = some 1 := by
  decide

theorem isCounters_iff (r : Read) :
    r.isCounters = true ↔ ∃ c1 c2, r = Read.counters c1 c2 := by
  cases r <;> simp [Read.isCounters]

theorem actled_setupOk_iff (e : actledPi.Env) :
    actledPi.setupOk e = true ↔ actledPi.SetupOk e := by
  simp only [actledPi.setupOk, actledPi.SetupOk, isCounters_iff, Bool.and_eq_true,
    Bool.not_eq_true', Bool.and_eq_false_imp, decide_eq_true_eq, decide_eq_false_iff_not, and_assoc]
  tauto

theorem hddled_setupOk_iff (e : hddledPi.Env) :
    hddledPi.setupOk e = true ↔ hddledPi.SetupOk e := by
  simp only [hddledPi.setupOk, hddledPi.SetupOk, isCounters_iff, Bool.and_eq_true,
    Bool.not_eq_true', Bool.and_eq_false_imp, decide_eq_true_eq, decide_eq_false_iff_not, and_assoc]
  tauto

/-- C8, amended. Exit codes of `actledPi.c` (where the trigger file reopens
at `out`) and `hddledPi.c`: `main` returns `EXIT_SUCCESS` (0) whenever setup
succeeded, that is on clean shutdown, in the detaching parent and when the
loop is left by an interrupted `nanosleep` or a failing sample; it returns
`EXIT_FAILURE` (1) on every setup failure (`argp_parse` error, a file that
does not open, a failing priming sample, a failing `fork`). -/
theorem C8_exit_status (e : actledPi.Env) (h : hddledPi.Env) (hr : e.restore = true) :
    (actledPi.main e).status = some (if actledPi.setupOk e then 0 else 1) ∧
    (hddledPi.main h).status = some (if hddledPi.setupOk h then 0 else 1) := by
  constructor
  · by_cases hs : actledPi.setupOk e = true
    · rw [if_pos hs]
      exact (actled_main_status e hr).1 ((actled_setupOk_iff e).mp hs)
    · rw [if_neg hs]
      exact (actled_main_status e hr).2 (fun hp => hs ((actled_setupOk_iff e).mpr hp))
  · by_cases hs : hddledPi.setupOk h = true
    · rw [if_pos hs]
      exact (hddled_main_status h).1 ((hddled_setupOk_iff h).mp hs)
    · rw [if_neg hs]
      exact (hddled_main_status h).2 (fun hp => hs ((hddled_setupOk_iff h).mpr hp))

/-- Witness of C8, amended: a run of `actledPi.c` whose loop is left by a
sample that fails, and a run of `hddledPi.c` whose priming sample fails. -/
theorem C8_exit_status_witness :
    (actledPi.main { priming := passOf "pgpgin 10\npgpgout 5\n",
                     ticks := [Tick.poll (passOf "")] }).status = some 0 ∧
    (hddledPi.main { priming := passOf "", ticks := [] }).status = some 1 :=
  C8_exit_status { priming := passOf "pgpgin 10\npgpgout 5\n", ticks := [Tick.poll (passOf "")] }
    { priming := passOf "", ticks := [] } rfl

/-! ## Option parsing -/

/-- C9. Evaluation of `parse_options` of `actledPi.c` on `-r -1` and on the
least value of a 32-bit `long`: the assignment to the `unsigned int`
`o_refresh` turns the negative value of `strtol` into one of `2 ^ 31` or
more, the test `o_refresh < 10` is false, `argp_failure` is not called and
the value is accepted, although it is below 10; `-r 9` is refused. -/
theorem C9_negative_refresh_accepted :
    actledPi.parse_options 'r'.toNat (-1) {}
      = actledPi.Parsed.ret 0 { o_refresh := 4294967295 } ∧
    actledPi.parse_options 'r'.toNat (-2147483648) {}
      = actledPi.Parsed.ret 0 { o_refresh := 2147483648 } ∧
    actledPi.parse_options 'r'.toNat 9 {} = actledPi.Parsed.exit EXIT_FAILURE := by
  decide

/-- Refresh validation on the values an `unsigned int` can hold: for
`0 ≤ v < 2 ^ 32`, `parse_options` ends the process through `argp_failure`
with `EXIT_FAILURE` iff `v < 10` and otherwise accepts `v` with
`o_refresh = v`; and for every `v` and every key, a call that returns leaves
`o_refresh` at 10 or more if it was so before, as it is initially (20). -/
theorem actled_refresh_in_range (v : Int) (o : actledPi.Options) :
    (0 ≤ v → v < 2 ^ 32 →
      (actledPi.parse_options 'r'.toNat v o = actledPi.Parsed.exit EXIT_FAILURE ↔ v < 10) ∧
      (10 ≤ v →
        actledPi.parse_options 'r'.toNat v o = actledPi.Parsed.ret 0 { o with o_refresh := v.toNat })) ∧
    (∀ (key r : Int) (o1 : actledPi.Options), 10 ≤ o.o_refresh →
      actledPi.parse_options key v o = actledPi.Parsed.ret r o1 → 10 ≤ o1.o_refresh) ∧
    10 ≤ ({} : actledPi.Options).o_refresh := by
  have hrd : ¬ ((('r'.toNat : Nat) : Int) = 'd'.toNat) := by decide
  refine ⟨?_, ?_, by decide⟩
  · intro h0 h1
    have hmod : v % (UINT_MOD : Int) = v := by
      apply Int.emod_eq_of_lt h0
      simpa [UINT_MOD] using h1
    simp only [actledPi.parse_options, hrd, if_false, if_true, hmod]
    constructor
    · constructor
      · intro h
        by_contra hc
        have : ¬ v.toNat < 10 := by omega
        rw [if_neg this] at h
        cases h
      · intro h
        have : v.toNat < 10 := by omega
        rw [if_pos this]
    · intro h
      have : ¬ v.toNat < 10 := by omega
      rw [if_neg this]
  · intro key r o1 ho h
    unfold actledPi.parse_options at h
    split_ifs at h with h1 h2 h3
    · cases h; exact ho
    · cases h; simpa using h3
    · cases h; exact ho

/-! ## The scenario of the specification -/

/-- C10. The scenario on the disk samples (10, 5), (10, 5), (12, 5), (12, 5),
(12, 9): the calls of `activity` return 1 (the priming call, whose value
`main` discards), 0, 1, 0, 1; `main` writes off at startup, then on, off, on
in the loop and off at shutdown, so two writes of on, four writes after
startup, and off last; the request for off after the second sample writes
nothing. -/
theorem C10_scenario :
    actledPi.activities ABI.ilp32
      [passOf "pgpgin 10\npgpgout 5\n", passOf "pgpgin 10\npgpgout 5\n",
       passOf "pgpgin 12\npgpgout 5\n", passOf "pgpgin 12\npgpgout 5\n",
       passOf "pgpgin 12\npgpgout 9\n"] {} = [1, 0, 1, 0, 1] ∧
    actledPi.main
      { priming := passOf "pgpgin 10\npgpgout 5\n",
        ticks := [Tick.poll (passOf "pgpgin 10\npgpgout 5\n"),
                  Tick.poll (passOf "pgpgin 12\npgpgout 5\n"),
                  Tick.poll (passOf "pgpgin 12\npgpgout 5\n"),
                  Tick.poll (passOf "pgpgin 12\npgpgout 9\n")] }
      = ⟨[Event.fputs actledPi.TRGCTL "none\n",
          Event.fputs actledPi.ACTLED "0\n",
          Event.fputs actledPi.ACTLED "255\n",
          Event.fputs actledPi.ACTLED "0\n",
          Event.fputs actledPi.ACTLED "255\n",
          Event.fputs actledPi.ACTLED "0\n",
          Event.fputs actledPi.TRGCTL "mmc0\n"], some 0⟩ ∧
    (actledPi.loop ABI.ilp32 [Tick.poll (passOf "pgpgin 10\npgpgout 5\n")]
      (actledPi.activity ABI.ilp32 (passOf "pgpgin 10\npgpgout 5\n") actledPi.started).2).log
      = actledPi.started.log := by
  refine ⟨by decide, by decide, by decide⟩

/-! ## Baseline priming -/

theorem actled_led_current (a : Int) (s : actledPi.State) : (actledPi.led a s).current = a := by
  unfold actledPi.led
  by_cases h : s.current = a
  · rw [if_pos h]; exact h
  · rw [if_neg h]

theorem hddled_led_current (pin : Nat) (a : Int) (s : hddledPi.State) :
    (hddledPi.led pin a s).current = a := by
  unfold hddledPi.led
  by_cases h : s.current = a
  · rw [if_pos h]; exact h
  · rw [if_neg h]

theorem actled_out_log_mem (e : actledPi.Env) (b : Bool) (s : actledPi.State) (status : Int)
    (ev : Event) (h : ev ∈ (actledPi.out e b s status).log) :
    ev ∈ s.log ∨ ev = Event.fputs actledPi.TRGCTL "mmc0\n" := by
  unfold actledPi.out at h
  split_ifs at h
  · simpa using h
  · exact Or.inl h
  · exact Or.inl h

theorem actled_started_log : actledPi.started.log
    = [Event.fputs actledPi.TRGCTL "none\n", Event.fputs actledPi.ACTLED "0\n"] := by decide

theorem actled_started_current : actledPi.started.current = 0 := by decide

theorem actled_no_on_of_started (e : actledPi.Env) (b : Bool) (s : actledPi.State)
    (status : Int) (h : s.log = actledPi.started.log) :
    Event.fputs actledPi.ACTLED "255\n" ∉ (actledPi.out e b s status).log := by
  intro hm
  rcases actled_out_log_mem e b s status _ hm with h1 | h1
  · rw [h, actled_started_log] at h1
    revert h1; decide
  · revert h1; decide

theorem actled_led_LOW_primed (s : actledPi.State) (h : s.current = 0) :
    actledPi.led actledPi.LOW s = s := by
  unfold actledPi.led
  rw [if_pos (show s.current = actledPi.LOW from h)]

theorem actled_loop_single (abi : ABI) (g : Pass) (s : actledPi.State) :
    actledPi.loop abi [Tick.poll g] s =
      if (actledPi.activity abi g s).1 < 0 then (actledPi.activity abi g s).2
      else actledPi.led (actledPi.activity abi g s).1 (actledPi.activity abi g s).2 := rfl

/-- C11. Baseline priming, in `actledPi.c`: whatever the first sample is,
a run of `main` whose loop makes no turn writes no `"255\n"` to the
brightness file, the value of the priming call being discarded; and when the
sink is initialised, the priming pass yields the counters `(c1, c2)` and
the pass `g` of the first turn yields the same, that turn's call of `activity` returns 0,
so that `led(0)` is called and nothing is written: a run of that one
turn writes no `"255\n"` either. -/
theorem C11_baseline_priming (e : actledPi.Env) (g : Pass) (c1 c2 : Nat) :
    (e.ticks = [] → Event.fputs actledPi.ACTLED "255\n" ∉ (actledPi.main e).log) ∧
    (e.argp_parse = 0 → e.vmstat = true → e.trigger = true → e.actled = true →
      actledPi.readCounters e.abi e.priming = Read.counters c1 c2 →
      (actledPi.activity e.abi e.priming actledPi.started).1
        = (if 0 ≠ c1 ∨ 0 ≠ c2 then 1 else 0) ∧
      (actledPi.activity e.abi e.priming actledPi.started).2.log = actledPi.started.log ∧
      (actledPi.activity e.abi e.priming actledPi.started).2.current = 0 ∧
      (actledPi.readCounters e.abi g = Read.counters c1 c2 →
        (actledPi.activity e.abi g (actledPi.activity e.abi e.priming actledPi.started).2).1 = 0 ∧
        (actledPi.loop e.abi [Tick.poll g]
          (actledPi.activity e.abi e.priming actledPi.started).2).log = actledPi.started.log ∧
        (e.ticks = [Tick.poll g] →
          Event.fputs actledPi.ACTLED "255\n" ∉ (actledPi.main e).log))) := by
  have hlog := (actled_activity_log e.abi e.priming actledPi.started).1
  have hcur := (actled_activity_log e.abi e.priming actledPi.started).2
  rw [actled_started_current] at hcur
  constructor
  · intro ht
    by_cases h0 : e.argp_parse = 0
    swap
    · simp [actledPi.main, h0, actledPi.out]
    by_cases h1 : e.vmstat = true
    swap
    · simp [actledPi.main, h0, h1, actledPi.out]
    by_cases h2 : e.trigger = true
    swap
    · simp [actledPi.main, h0, h1, h2, actledPi.out]
    by_cases h3 : e.actled = true
    swap
    · simp [actledPi.main, h0, h1, h2, h3, actledPi.out]
    rw [actled_main_started e h0 h1 h2 h3, ht]
    split_ifs
    · exact actled_no_on_of_started e _ _ _ hlog
    · exact actled_no_on_of_started e _ _ _ hlog
    · exact actled_no_on_of_started e _ _ _ hlog
    · apply actled_no_on_of_started
      rw [actledPi.loop, actled_led_LOW_primed _ hcur, hlog]
  · intro h0 h1 h2 h3 hp
    refine ⟨?_, hlog, hcur, ?_⟩
    · rw [actled_activity_of_counters _ _ _ _ _ hp]
      rfl
    · intro hg
      have hz : (actledPi.activity e.abi g
          (actledPi.activity e.abi e.priming actledPi.started).2).1 = 0 := by
        rw [actled_activity_of_counters _ _ _ _ _ hg, actled_activity_of_counters _ _ _ _ _ hp]
        simp
      have hl : (actledPi.loop e.abi [Tick.poll g]
          (actledPi.activity e.abi e.priming actledPi.started).2).log
          = actledPi.started.log := by
        have hnn : ¬ (actledPi.activity e.abi g
            (actledPi.activity e.abi e.priming actledPi.started).2).1 < 0 := by
          rw [hz]; decide
        rw [actled_loop_single, if_neg hnn, hz]
        have hc2 := (actled_activity_log e.abi g
          (actledPi.activity e.abi e.priming actledPi.started).2).2
        rw [hcur] at hc2
        have hl2 := (actled_activity_log e.abi g
          (actledPi.activity e.abi e.priming actledPi.started).2).1
        have : actledPi.led 0 (actledPi.activity e.abi g
            (actledPi.activity e.abi e.priming actledPi.started).2).2
            = (actledPi.activity e.abi g
            (actledPi.activity e.abi e.priming actledPi.started).2).2 :=
          actled_led_LOW_primed _ hc2
        rw [this, hl2, hlog]
      refine ⟨hz, hl, ?_⟩
      intro ht
      rw [actled_main_started e h0 h1 h2 h3, ht]
      have hpos : ¬ (actledPi.activity e.abi e.priming actledPi.started).1 < 0 := by
        rw [actled_activity_of_counters _ _ _ _ _ hp]
        dsimp only; split <;> decide
      rw [if_neg hpos]
      split_ifs
      · exact actled_no_on_of_started e _ _ _ hlog
      · exact actled_no_on_of_started e _ _ _ hlog
      · apply actled_no_on_of_started
        have hc3 : (actledPi.loop e.abi [Tick.poll g]
            (actledPi.activity e.abi e.priming actledPi.started).2).current = 0 := by
          have hnn : ¬ (actledPi.activity e.abi g
              (actledPi.activity e.abi e.priming actledPi.started).2).1 < 0 := by
            rw [hz]; decide
          rw [actled_loop_single, if_neg hnn, hz]
          exact actled_led_current 0 _
        rw [actled_led_LOW_primed _ hc3, hl]

/-- Witness of C11: the first sample (10, 5) differs from the stored (0, 0),
the priming call returns 1, the sample of the first turn is the same, and
`main` writes off once and never on. -/
theorem C11_baseline_priming_witness :
    (actledPi.activity ABI.ilp32 (passOf "pgpgin 10\npgpgout 5\n") actledPi.started).1 = 1 ∧
    (actledPi.activity ABI.ilp32 (passOf "pgpgin 10\npgpgout 5\n")
      (actledPi.activity ABI.ilp32 (passOf "pgpgin 10\npgpgout 5\n") actledPi.started).2).1 = 0 ∧
    Event.fputs actledPi.ACTLED "255\n" ∉
      (actledPi.main { priming := passOf "pgpgin 10\npgpgout 5\n",
                       ticks := [Tick.poll (passOf "pgpgin 10\npgpgout 5\n")] }).log := by
  have h := (C11_baseline_priming
    { priming := passOf "pgpgin 10\npgpgout 5\n", ticks := [Tick.poll (passOf "pgpgin 10\npgpgout 5\n")] }
    (passOf "pgpgin 10\npgpgout 5\n") 10 5).2 rfl rfl rfl rfl (by decide)
  exact ⟨h.1, (h.2.2.2 (by decide)).1, (h.2.2.2 (by decide)).2.2 rfl⟩

/-! ## Header lines of `/proc/net/dev` -/

/-- C12. Evaluation of `activity` of `netledPi.c` on the two header lines
followed by the `lo:` row: on each header line `%s` converts (`Inter-|`,
`face`), `sscanf` returns 1 and the line counts as found, so the call does
not return -1: it returns 0 after comparing the aggregate (0, 0). Without
the header lines the same row gives -1. -/
theorem C12_header_lines_count_as_found :
    sscanf ABI.ilp32 "Inter-|   Receive  |  Transmit\n".toList netledPi.FORMAT
      = ⟨1, [Arg.str "Inter-|".toList]⟩ ∧
    netledPi.readCounters ABI.ilp32 (passOf (netledPi.HEADER ++ netledPi.LOOPBACK))
      = some (Read.counters 0 0) ∧
    netledPi.activity ABI.ilp32 (passOf (netledPi.HEADER ++ netledPi.LOOPBACK)) {}
      = some (0, {}) ∧
    netledPi.activity ABI.ilp32 (passOf netledPi.LOOPBACK) {} = some (-1, {}) := by
  set_option maxRecDepth 100000 in
  refine ⟨by decide, by decide, by decide, by decide⟩

/-! ## The cache of `led` -/

theorem lastWrite_snoc (pin : Nat) (v : Int) (log : List Event) :
    hddledPi.lastWrite pin (log ++ [Event.digitalWrite pin v]) = some v := by
  simp [hddledPi.lastWrite, List.filterMap_append]

theorem actled_led_cached (a : Int) (s : actledPi.State)
    (h : actledPi.Cached s ∨ s.current ≠ a) : actledPi.Cached (actledPi.led a s) := by
  unfold actledPi.led
  by_cases hc : s.current = a
  · rw [if_pos hc]
    rcases h with h | h
    · exact h
    · exact absurd hc h
  · rw [if_neg hc]
    unfold actledPi.Cached
    dsimp only
    split_ifs <;> exact lastWritten_snoc_same _ _ _

theorem hddled_led_cached (pin : Nat) (a : Int) (s : hddledPi.State)
    (h : hddledPi.Cached pin s ∨ s.current ≠ a) :
    hddledPi.Cached pin (hddledPi.led pin a s) := by
  unfold hddledPi.led
  by_cases hc : s.current = a
  · rw [if_pos hc]
    rcases h with h | h
    · exact h
    · exact absurd hc h
  · rw [if_neg hc]
    unfold hddledPi.Cached
    dsimp only
    split_ifs <;> exact lastWrite_snoc _ _ _

theorem actled_leds_cached (args : List Int) :
    ∀ s : actledPi.State, actledPi.Cached s →
      actledPi.Cached (actledPi.leds args s) ∧
      (actledPi.leds args s).current = args.getLast?.getD s.current := by
  induction args with
  | nil => intro s h; exact ⟨h, rfl⟩
  | cons a rest ih =>
    intro s h
    have hstep : actledPi.leds (a :: rest) s = actledPi.leds rest (actledPi.led a s) := rfl
    obtain ⟨h1, h2⟩ := ih (actledPi.led a s) (actled_led_cached a s (Or.inl h))
    rw [hstep]
    refine ⟨h1, ?_⟩
    rw [h2, actled_led_current]
    cases rest <;> simp [List.getLast?]

theorem hddled_leds_cached (pin : Nat) (args : List Int) :
    ∀ s : hddledPi.State, hddledPi.Cached pin s →
      hddledPi.Cached pin (hddledPi.leds pin args s) ∧
      (hddledPi.leds pin args s).current = args.getLast?.getD s.current := by
  induction args with
  | nil => intro s h; exact ⟨h, rfl⟩
  | cons a rest ih =>
    intro s h
    have hstep : hddledPi.leds pin (a :: rest) s
        = hddledPi.leds pin rest (hddledPi.led pin a s) := rfl
    obtain ⟨h1, h2⟩ := ih (hddledPi.led pin a s) (hddled_led_cached pin a s (Or.inl h))
    rw [hstep]
    refine ⟨h1, ?_⟩
    rw [h2, hddled_led_current]
    cases rest <;> simp [List.getLast?]

theorem getLast_getD_bit (args : List Int) (hargs : ∀ a ∈ args, a = 0 ∨ a = 1) :
    args.getLast?.getD 0 = 0 ∨ args.getLast?.getD 0 = 1 := by
  induction args with
  | nil => left; rfl
  | cons a rest ih =>
    cases rest with
    | nil => simpa [List.getLast?] using hargs a (List.mem_cons_self _ _)
    | cons b rest2 =>
      have := ih (fun x hx => hargs x (List.mem_cons_of_mem _ hx))
      simpa [List.getLast?] using this

/-- C13. Sink cache invariant, in `actledPi.c` and `hddledPi.c`: after the
startup call `led(LOW)` on a sink whose stored level is 1, and any further
calls of `led` with arguments 0 or 1, the stored `current` is the argument of
the most recent call, and the last level written (the string `"255\n"` for
1 and `"0\n"` for 0; the pin value) is that same level. -/
theorem C13_sink_cache (args : List Int) (pin : Nat) (s0 : actledPi.State)
    (hfresh : s0.current = 1) (hargs : ∀ a ∈ args, a = 0 ∨ a = 1) :
    (actledPi.leds args (actledPi.led actledPi.LOW s0)).current = args.getLast?.getD 0 ∧
    actledPi.lastWritten actledPi.ACTLED (actledPi.leds args (actledPi.led actledPi.LOW s0)).log
      = some (if (actledPi.leds args (actledPi.led actledPi.LOW s0)).current = 1
              then "255\n" else "0\n") ∧
    (hddledPi.leds pin args (hddledPi.led pin hddledPi.LOW s0)).current
      = args.getLast?.getD 0 ∧
    hddledPi.lastWrite pin (hddledPi.leds pin args (hddledPi.led pin hddledPi.LOW s0)).log
      = some (hddledPi.leds pin args (hddledPi.led pin hddledPi.LOW s0)).current := by
  have hne : s0.current ≠ 0 := by rw [hfresh]; decide
  have hbit := getLast_getD_bit args hargs
  obtain ⟨a1, a2⟩ := actled_leds_cached args _
    (actled_led_cached actledPi.LOW s0 (Or.inr hne))
  obtain ⟨b1, b2⟩ := hddled_leds_cached pin args _
    (hddled_led_cached pin hddledPi.LOW s0 (Or.inr hne))
  rw [actled_led_current] at a2
  rw [hddled_led_current] at b2
  have a3 : (actledPi.leds args (actledPi.led actledPi.LOW s0)).current
      = args.getLast?.getD 0 := a2
  have b3 : (hddledPi.leds pin args (hddledPi.led pin hddledPi.LOW s0)).current
      = args.getLast?.getD 0 := b2
  unfold actledPi.Cached at a1
  unfold hddledPi.Cached at b1
  refine ⟨a3, ?_, b3, ?_⟩
  · rw [a1, a3]
    rcases hbit with h | h <;> rw [h] <;> rfl
  · rw [b1, b3]
    rcases hbit with h | h <;> rw [h] <;> rfl

/-- Witness of C13: on, on, off, on after the startup call on a fresh sink. -/
theorem C13_sink_cache_witness :
    (actledPi.leds [1, 1, 0, 1] (actledPi.led actledPi.LOW {})).current = 1 ∧
    actledPi.lastWritten actledPi.ACTLED
      (actledPi.leds [1, 1, 0, 1] (actledPi.led actledPi.LOW {})).log = some "255\n" ∧
    hddledPi.lastWrite 10
      (hddledPi.leds 10 [1, 1, 0, 1] (hddledPi.led 10 hddledPi.LOW {})).log = some 1 :=
  ⟨(C13_sink_cache [1, 1, 0, 1] 10 {} rfl (by decide)).1,
   (C13_sink_cache [1, 1, 0, 1] 10 {} rfl (by decide)).2.1,
   (C13_sink_cache [1, 1, 0, 1] 10 {} rfl (by decide)).2.2.2⟩

/-! ## The delay -/

theorem toSigned_small (abi : ABI) (x : Nat) (h : x < 2 ^ 31) :
    toSigned abi.LONG_BIT x = x := by
  unfold toSigned
  cases abi <;> simp only [ABI.LONG_BIT]
  · have h1 : x % 2 ^ 32 = x := Nat.mod_eq_of_lt (by omega)
    rw [h1, if_pos (by norm_num; omega)]
  · have h1 : x % 2 ^ 64 = x := Nat.mod_eq_of_lt (by omega)
    rw [h1, if_pos (by norm_num; omega)]

theorem delay_exact (abi : ABI) (r : Nat) (hr : r < 2 ^ 32) :
    actledPi.delay abi r = ⟨(r / 1000 : Nat), (1000000 * (r % 1000) : Nat)⟩ := by
  have h1 : r / 1000 % UINT_MOD = r / 1000 := Nat.mod_eq_of_lt (by unfold UINT_MOD; omega)
  have h2 : r % 1000 % UINT_MOD = r % 1000 := Nat.mod_eq_of_lt (by unfold UINT_MOD; omega)
  have h3 : 1000000 * (r % 1000) % UINT_MOD = 1000000 * (r % 1000) :=
    Nat.mod_eq_of_lt (by unfold UINT_MOD; omega)
  unfold actledPi.delay
  rw [h1, h2, h3, toSigned_small abi _ (by omega), toSigned_small abi _ (by omega)]

/-- C14. Exact delay conversion, in the three programs: for every `unsigned
int` value `r` of `o_refresh`, `tv_sec` is `r / 1000` and `tv_nsec` is
`1000000 * (r % 1000)`, a product below `2 ^ 32` (so the `unsigned int`
multiplication does not wrap) and below `1000000000`, and the two fields
add up to `r * 1000000` nanoseconds. -/
theorem C14_exact_delay (abi : ABI) (r : Nat) (hr : r < 2 ^ 32) :
    hddledPi.delay abi r = actledPi.delay abi r ∧
    netledPi.delay abi r = actledPi.delay abi r ∧
    (actledPi.delay abi r).tv_sec = (r / 1000 : Nat) ∧
    (actledPi.delay abi r).tv_nsec = (1000000 * (r % 1000) : Nat) ∧
    1000000 * (r % 1000) < 2 ^ 32 ∧
    0 ≤ (actledPi.delay abi r).tv_nsec ∧ (actledPi.delay abi r).tv_nsec < 1000000000 ∧
    (actledPi.delay abi r).tv_sec * 1000000000 + (actledPi.delay abi r).tv_nsec
      = (r : Int) * 1000000 := by
  refine ⟨rfl, rfl, ?_⟩
  rw [delay_exact abi r hr]
  refine ⟨rfl, rfl, by omega, ?_, ?_, ?_⟩
  · dsimp only; omega
  · dsimp only; omega
  · dsimp only; omega

/-- Witness of C14: the default interval of 20 ms, and the largest value. -/
theorem C14_exact_delay_witness :
    (actledPi.delay ABI.ilp32 20).tv_sec = 0 ∧
    (actledPi.delay ABI.ilp32 20).tv_nsec = 20000000 ∧
    (netledPi.delay ABI.lp64 4294967295).tv_sec = 4294967 ∧
    (actledPi.delay ABI.lp64 4294967295).tv_nsec = 295000000 :=
  ⟨(C14_exact_delay ABI.ilp32 20 (by decide)).2.2.1,
   (C14_exact_delay ABI.ilp32 20 (by decide)).2.2.2.1,
   (C14_exact_delay ABI.lp64 4294967295 (by decide)).2.2.1,
   (C14_exact_delay ABI.lp64 4294967295 (by decide)).2.2.2.1⟩

end PiLED
